import Mathlib

/-!
Verification development for the D-Strategies trading control plane.

Shallow embedding of the core subsystems:
* `backend/orchestration/strategy_manager.py` — Orchestrator, StrategySpec,
  StrategyState, StrategyHandle, `load_from_registry`, `tick_once`,
  `save_snapshot`/`load_snapshot`;
* `backend/execution/oms.py` — OMS, OMSOrder, OMSOrderRequest, `submit`;
* `backend/resilience/self_heal/healthcheck.py` — HealthCheck;
* `backend/resilience/self_heal/watchdogs.py` — Watchdog;
* `backend/resilience/self_heal/failover.py` — FailoverManager;
* `orchestration/modes.py` (ModeController) is not part of the sources and is
  modelled from the specification where a claim needs it.

Python floats are embedded as rationals (`ℚ`), Python dicts as association
lists (with insertion-order-preserving update, matching dict semantics) or as
total functions where the source guarantees every key is present. Python
exceptions are embedded with `Except`/explicit error flags; where the source
mutates state before raising, the embedded function returns the mutated state
alongside the error.
-/

/-! ### Kernel-computable embeddings of the Python `str` methods used by the
sources (`split`, `join`, `upper`, `lower`, `strip`, `in`), implemented by
structural recursion over the character list (ASCII case mapping). -/

/-- `s.split(sep)` on the character list: split at every separator. -/
def splitOnChar (sep : Char) : List Char → List (List Char)
  | [] => [[]]
  | c :: rest =>
    let r := splitOnChar sep rest
    if c = sep then [] :: r
    else
      match r with
      | [] => [[c]]
      | g :: gs => (c :: g) :: gs

/-- `s.split(sep)` for a one-character separator. -/
def strSplitOnChar (sep : Char) (s : String) : List String :=
  (splitOnChar sep s.data).map String.mk

/-- `sep.join(parts)`. -/
def joinWith (sep : String) : List String → String
  | [] => ""
  | [x] => x
  | x :: y :: rest => x ++ sep ++ joinWith sep (y :: rest)

/-- `s.upper()`. -/
def strUpper (s : String) : String := String.mk (s.data.map Char.toUpper)

/-- `s.lower()`. -/
def strLower (s : String) : String := String.mk (s.data.map Char.toLower)

/-- `s.strip()`. -/
def strTrim (s : String) : String :=
  String.mk
    (((s.data.dropWhile Char.isWhitespace).reverse.dropWhile
      Char.isWhitespace).reverse)

/-- `pat in s` — substring containment over character lists. -/
def charsContain (pat : List Char) : List Char → Bool
  | [] => pat.isEmpty
  | c :: rest => pat.isPrefixOf (c :: rest) || charsContain pat rest

/-! ### Association-list model of Python `dict` (string keys). -/

/-- `m.get(k, d)` on a Python dict embedded as an association list. -/
def dictGetD {β : Type} (m : List (String × β)) (k : String) (d : β) : β :=
  (m.lookup k).getD d

/-- `m[k] = v` on a Python dict: replaces the value in place if the key is
present (preserving insertion order), otherwise appends the new key at the
end, as Python dicts do. -/
def dictSet {β : Type} (m : List (String × β)) (k : String) (v : β) :
    List (String × β) :=
  match m with
  | [] => [(k, v)]
  | (k', v') :: rest =>
    if k' = k then (k, v) :: rest else (k', v') :: dictSet rest k v

/-! ### Decimal rendering of `Nat` (the `f"OMS-{oid}"` identifier strings).

`Nat.repr` is the decimal rendering used by Lean's `toString` on `Nat`; we
prove it injective so that distinctness of the numeric OMS counter values
transfers to distinctness of the rendered id strings. -/

/-- Numeric value of a decimal digit character. -/
def digitVal (c : Char) : Nat := c.toNat - 48

/-- Decode a list of decimal digit characters (most significant first). -/
def decDigits (l : List Char) : Nat :=
  l.foldl (fun a c => a * 10 + digitVal c) 0

/-- Fuel-indexed reference implementation of the decimal digit list of a
natural number, mirroring `Nat.toDigitsCore` at base 10. -/
def natCharsAux : Nat → Nat → List Char
  | 0, _ => []
  | fuel + 1, n =>
    if n < 10 then [Nat.digitChar n]
    else natCharsAux fuel (n / 10) ++ [Nat.digitChar (n % 10)]

/-! ### Data model of `strategy_manager.py`. -/

/-- `StrategySpec` from `strategy_manager.py` (immutable registry row view). -/
structure StrategySpec where
  id : String
  name : String
  family : String
  engine : String
  yaml : String
  control_mode : String := "SEMI_AUTO"
  run_mode : String := "PAPER"
  tags : List String := []
  deriving DecidableEq

/-- `StrategyState` from `strategy_manager.py`; floats are embedded as `ℚ`
and the `positions` dict as an association list. -/
structure StrategyState where
  last_ts : Int := 0
  health : String := "INIT"
  errors : Nat := 0
  trades_sent_today : ℚ := 0
  positions : List (String × ℚ) := []
  nav : ℚ := 1000000
  pnl_day : ℚ := 0
  pnl_cum : ℚ := 0
  deriving DecidableEq

/-- One proposed-order row: `{ticker, side, trade_notional, px_hint_bps?}`.
`px_hint_bps` defaults to `0` following `r.get("px_hint_bps", 0.0)`. -/
structure Order where
  ticker : String
  side : String
  trade_notional : ℚ
  px_hint_bps : ℚ := 0
  deriving DecidableEq

/-- One fill row as built by the paper-fill fallback or a router callback. -/
structure Fill where
  ticker : String
  side : String
  filled_usd : ℚ
  status : String
  avg_price_bps : ℚ
  ts : Int
  deriving DecidableEq

/-- Result buckets of `ModeController.process_orders`. -/
structure Gated where
  approved : List Order
  queued : List Order
  rejected : List Order
  deriving DecidableEq

/-- Behaviour of a strategy adapter object during one tick.  Python
exceptions raised by an adapter method are embedded as `Except.error`.
`generate_signals` returning a falsy payload is embedded as `none`
(the `or {}` default). `propose_trades` returning `None` is `none`. -/
structure Adapter (Sig : Type) where
  mark_to_market : StrategyState → Int → Except String (List (String × ℚ))
  generate_signals : Int → Except String (Option Sig)
  propose_trades : StrategyState → Int → Except String (Option (List Order))
  apply_fills : Option (List Fill → Except String Unit) := none

/-- `StrategyHandle`: spec + adapter + controller + mutable state.  The bound
controller is embedded by its behaviour `process_orders` (a raising call is
`Except.error`) together with the `describe()` snapshot used by
`save_snapshot`. -/
structure Handle (Sig : Type) where
  spec : StrategySpec
  adapter : Adapter Sig
  process_orders : List Order → Except String Gated
  control_desc : List (String × String) := []
  state : StrategyState := {}

/-- `base_symbol` from `strategy_manager.py`: join the first two
`"_"`-separated parts when there are at least two, else the first part. -/
def base_symbol (ticker : String) : String :=
  let parts := strSplitOnChar '_' ticker
  if parts.length ≥ 2 then joinWith "_" (parts.take 2)
  else parts.headD ""

/-- `"BUY" in str(side).upper()` — substring containment test. -/
def sideIsBuy (side : String) : Bool :=
  charsContain "BUY".data (strUpper side).data

/-- The paper-fill fallback of `tick_once`: every approved order becomes an
immediately `FILLED` fill at the proposed notional. -/
def paperFills (approved : List Order) (now : Int) : List Fill :=
  approved.map fun r =>
    { ticker := r.ticker, side := r.side, filled_usd := r.trade_notional,
      status := "FILLED", avg_price_bps := r.px_hint_bps, ts := now }

/-- Body of the fill-application loop of `tick_once`: positions are updated by
the notional signed by side at the fill's base symbol, and
`trades_sent_today` by the unsigned notional. -/
def applyFill (st : StrategyState) (f : Fill) : StrategyState :=
  let signed := if sideIsBuy f.side then f.filled_usd else -f.filled_usd
  let base := base_symbol f.ticker
  { st with
    positions := dictSet st.positions base (dictGetD st.positions base 0 + signed)
    trades_sent_today := st.trades_sent_today + |f.filled_usd| }

/-- Result dictionary of `Orchestrator.tick_once`: the error shape, the
early-return shape for an empty proposal set (`"routed": 0`), and the full
success shape. -/
inductive TickResult (Sig : Type) where
  | err (msg : String)
  | noTrades (signals : Option Sig) (pnl_inc : ℚ)
  | ok (signals : Option Sig) (approved_n queued_n rejected_n fills_n : Nat)
      (pnl_inc : ℚ) (positions : List (String × ℚ))
  deriving DecidableEq

/-- State after the mark-to-market stage of `tick_once`: the `pnl_usd`
increment (default `0`) is accumulated into day and cumulative PnL and the
last-tick timestamp is set. -/
def mtmState (st : StrategyState) (mtm : List (String × ℚ)) (now : Int) :
    StrategyState :=
  let inc := dictGetD mtm "pnl_usd" 0
  { st with
    pnl_day := st.pnl_day + inc
    pnl_cum := st.pnl_cum + inc
    last_ts := now }

/-- `Orchestrator.tick_once` for one handle.  The handle's mutated state is
returned alongside the result dictionary; the mutations performed before an
exception is raised persist, as in the source.  The `apply_fills` adapter
callback is invoked with the fills but any exception it raises is swallowed
(`try/except: pass`), so it has no effect on the returned state. -/
def tick_once {Sig : Type} (h : Handle Sig) (now : Int)
    (router_send : Option (List Order → List Fill)) :
    Handle Sig × TickResult Sig :=
  match h.adapter.mark_to_market h.state now with
  | .error e =>
    ({ h with state :=
        { h.state with health := "ERROR", errors := h.state.errors + 1 } },
     .err e)
  | .ok mtm =>
    let inc := dictGetD mtm "pnl_usd" 0
    let st1 := mtmState h.state mtm now
    match h.adapter.generate_signals now with
    | .error e =>
      ({ h with state :=
          { st1 with health := "ERROR", errors := st1.errors + 1 } }, .err e)
    | .ok sigs =>
      match h.adapter.propose_trades st1 now with
      | .error e =>
        ({ h with state :=
            { st1 with health := "ERROR", errors := st1.errors + 1 } }, .err e)
      | .ok proposedOpt =>
        let proposed := proposedOpt.getD []
        if proposed.isEmpty then
          ({ h with state := st1 }, .noTrades sigs inc)
        else
          match h.process_orders proposed with
          | .error e =>
            ({ h with state :=
                { st1 with health := "ERROR", errors := st1.errors + 1 } },
             .err e)
          | .ok g =>
            let fills :=
              if g.approved.isEmpty then []
              else
                match router_send with
                | some f => f g.approved
                | none => paperFills g.approved now
            let st2 := fills.foldl applyFill st1
            let st3 := { st2 with health := "RUNNING" }
            ({ h with state := st3 },
             .ok sigs g.approved.length g.queued.length g.rejected.length
               fills.length inc st2.positions)

/-! ### Registry loading (`Orchestrator.load_from_registry`). -/

/-- One registry row as read by the loading loop; absent columns are `none`
(`r.get(...)` defaults are applied in `rowToSpec`). -/
structure Row where
  id : String
  name : Option String := none
  family : Option String := none
  engine : Option String := none
  yaml : Option String := none
  control_mode : Option String := none
  run_mode : Option String := none
  tags : Option String := none
  deriving DecidableEq

/-- The `StrategySpec(...)` construction inside the loading loop, including
the `r.get(...)` defaults.  `str(r.get("engine"))` renders a missing engine
as the string `"None"`. -/
def rowToSpec (defaultRunMode : String) (r : Row) : StrategySpec :=
  { id := r.id
    name := r.name.getD r.id
    family := r.family.getD "unknown"
    engine := r.engine.getD "None"
    yaml := r.yaml.getD ""
    control_mode := strUpper (r.control_mode.getD "SEMI_AUTO")
    run_mode := strUpper (r.run_mode.getD defaultRunMode)
    tags := ((strSplitOnChar '|' (r.tags.getD "")).map strTrim).filter
      (fun t => t ≠ "") }

/-- The `has_tags` predicate of the tag filter: non-string cells fail, else
the lowered tag set must intersect the lowered `|`-split tokens. -/
def rowHasTags (tagsetLower : List String) (cell : Option String) : Bool :=
  match cell with
  | none => false
  | some s =>
    let toks := (strSplitOnChar '|' s).map (fun t => strLower (strTrim t))
    tagsetLower.any (fun t => toks.contains t)

/-- The row filters of `load_from_registry` (`ids`, `family`, `tags`,
`limit`), including Python truthiness: an empty list, empty string or zero
limit disables the corresponding filter. -/
def applyFilters (rows : List Row) (ids : Option (List String))
    (family : Option String) (tags : Option (List String))
    (limit : Option Nat) : List Row :=
  let rows1 :=
    match ids with
    | some l => if l.isEmpty then rows else rows.filter (fun r => l.contains r.id)
    | none => rows
  let rows2 :=
    match family with
    | some fam =>
      if fam = "" then rows1
      else rows1.filter (fun r =>
        match r.family with
        | some f => strLower f = strLower fam
        | none => false)
    | none => rows1
  let rows3 :=
    match tags with
    | some ts =>
      if ts.isEmpty then rows2
      else rows2.filter (fun r => rowHasTags (ts.map strLower) r.tags)
    | none => rows2
  match limit with
  | some n => if n = 0 then rows3 else rows3.take n
  | none => rows3

/-- `Orchestrator._build_handle`: adapter resolution/construction and config
loading are external effects (importlib, yaml file) and are passed in as
`resolveAdapter`; a raising resolution or constructor is `Except.error`.
`mkController` stands for the `ModeController(...)` construction, yielding
the bound `process_orders` behaviour and the `describe()` snapshot. -/
def build_handle {Sig : Type}
    (resolveAdapter : StrategySpec → Except String (Adapter Sig))
    (mkController : StrategySpec →
      (List Order → Except String Gated) × List (String × String))
    (spec : StrategySpec) : Except String (Handle Sig) :=
  match resolveAdapter spec with
  | .error e => .error e
  | .ok adapter =>
    let c := mkController spec
    .ok { spec := spec, adapter := adapter, process_orders := c.1,
          control_desc := c.2, state := {} }

/-- The per-row loop of `load_from_registry`.  Handles built before a failing
row persist in the orchestrator's `_handles` dict (mutation before the
raise), but the raised error aborts the loop: no later row is built and no
id list is returned. -/
def loadRows {Sig : Type}
    (resolveAdapter : StrategySpec → Except String (Adapter Sig))
    (mkController : StrategySpec →
      (List Order → Except String Gated) × List (String × String))
    (defaultRunMode : String) :
    List Row → List (String × Handle Sig) →
      List (String × Handle Sig) × Except String (List String)
  | [], handles => (handles, .ok [])
  | r :: rest, handles =>
    let spec := rowToSpec defaultRunMode r
    match build_handle resolveAdapter mkController spec with
    | .error e => (handles, .error e)
    | .ok hd =>
      match loadRows resolveAdapter mkController defaultRunMode rest
          (dictSet handles spec.id hd) with
      | (hs, .ok created) => (hs, .ok (spec.id :: created))
      | (hs, .error e) => (hs, .error e)

/-- `Orchestrator.load_from_registry`: read the registry (a missing registry
file is the `Except.error` case of `registry`), filter rows, then run the
building loop over the surviving rows. -/
def load_from_registry {Sig : Type}
    (resolveAdapter : StrategySpec → Except String (Adapter Sig))
    (mkController : StrategySpec →
      (List Order → Except String Gated) × List (String × String))
    (runModeName : String) (registry : Except String (List Row))
    (handles : List (String × Handle Sig))
    (ids : Option (List String)) (family : Option String)
    (tags : Option (List String)) (limit : Option Nat) :
    List (String × Handle Sig) × Except String (List String) :=
  match registry with
  | .error e => (handles, .error e)
  | .ok rows =>
    loadRows resolveAdapter mkController runModeName
      (applyFilters rows ids family tags limit) handles

/-! ### Snapshot persistence (`save_snapshot` / `load_snapshot`).

The JSON write/read round trip (`asdict` → `json.dumps` → `json.loads` →
`StrategyState(**d)`) is embedded as the identity on the field values. -/

/-- One snapshot entry: `{"spec": ..., "state": ..., "control": ...}`. -/
structure SavedEntry where
  spec : StrategySpec
  state : StrategyState
  control : List (String × String)
  deriving DecidableEq

/-- `Orchestrator.save_snapshot`: one entry per handle, keyed by strategy
id. -/
def save_snapshot {Sig : Type} (handles : List (String × Handle Sig)) :
    List (String × SavedEntry) :=
  handles.map fun p =>
    (p.1, { spec := p.2.spec, state := p.2.state, control := p.2.control_desc })

/-- `self._handles[sid].state = ...`: replace the state of the handle at
`sid`, leaving spec, adapter and controller untouched. -/
def setHandleState {Sig : Type} (hs : List (String × Handle Sig))
    (sid : String) (st : StrategyState) : List (String × Handle Sig) :=
  hs.map fun p => if p.1 = sid then (p.1, { p.2 with state := st }) else p

/-- `Orchestrator.load_snapshot`: for each snapshot entry whose id has a
handle, replace that handle's state; ids without a handle are skipped. -/
def load_snapshot {Sig : Type} (handles : List (String × Handle Sig))
    (snap : List (String × SavedEntry)) : List (String × Handle Sig) :=
  snap.foldl
    (fun hs p =>
      if (hs.lookup p.1).isSome then setHandleState hs p.1 p.2.state else hs)
    handles

/-! ### Order Management System (`backend/execution/oms.py`). -/

/-- The normalized result object a broker adapter's `submit_order` returns.
`filled_qty`/`fill_price` default as in `getattr(result, ..., default)`. -/
structure BrokerResult where
  id : Option String := none
  status : String
  filled_qty : ℚ := 0
  fill_price : Option ℚ := none
  deriving DecidableEq

/-- The broker-specific order request built by `_build_broker_request`.  Both
branches of the source (the broker's own `OrderRequest` class and the
dynamic fallback object) produce exactly this field set. -/
structure BrokerRequest where
  symbol : String
  side : String
  qty : ℚ
  order_type : String
  limit_price : Option ℚ
  client_order_id : String
  deriving DecidableEq

/-- Behaviour of a registered broker adapter during submission; a raising
`submit_order` is `Except.error`. -/
structure Broker where
  submit_order : BrokerRequest → Except String BrokerResult

/-- `OMSOrder` from `oms.py`; `raw` holds the broker result
(`result.__dict__`). -/
structure OMSOrder where
  id : String
  broker : String
  symbol : String
  side : String
  qty : ℚ
  order_type : String
  status : String
  submitted_at : ℚ
  broker_order_id : Option String := none
  fill_price : Option ℚ := none
  filled_qty : ℚ := 0
  raw : Option BrokerResult := none
  deriving DecidableEq

/-- `OMSOrderRequest` from `oms.py`. -/
structure OMSOrderRequest where
  broker : String
  symbol : String
  side : String
  qty : ℚ
  order_type : String := "market"
  limit_price : Option ℚ := none
  metadata : Option (List (String × String)) := none
  deriving DecidableEq

/-- OMS state: broker registry, append-only order book, id counter
(`self._oid`, starting at 1). -/
structure OMS where
  brokers : List (String × Broker) := []
  orders : List (String × OMSOrder) := []
  oid : Nat := 1

/-- The internal id string `f"OMS-{oid}"`. -/
def omsIdString (n : Nat) : String := "OMS-" ++ Nat.repr n

/-- Errors `OMS.submit` can raise: the `ValueError` for an unregistered
broker name, or an exception propagating out of the broker adapter. -/
inductive OMSError where
  | unregistered (msg : String)
  | brokerFail (msg : String)
  deriving DecidableEq

/-- `OMS._build_broker_request`: the broker-specific request carrying the
internal id as `client_order_id`. -/
def build_broker_request (req : OMSOrderRequest) (oms_id : String) :
    BrokerRequest :=
  { symbol := req.symbol, side := req.side, qty := req.qty,
    order_type := req.order_type, limit_price := req.limit_price,
    client_order_id := oms_id }

/-- `OMS.submit`.  The returned state reflects every mutation performed up to
the point a Python exception would propagate: the unregistered-broker
`ValueError` is raised before any mutation, while a broker `submit_order`
exception propagates after `self._oid += 1` but before the order book is
touched. -/
def OMS.submit (s : OMS) (req : OMSOrderRequest) (now : ℚ) :
    OMS × Except OMSError OMSOrder :=
  match s.brokers.lookup req.broker with
  | none => (s, .error (.unregistered ("Broker not registered: " ++ req.broker)))
  | some broker =>
    let oms_id := omsIdString s.oid
    let s1 := { s with oid := s.oid + 1 }
    let breq := build_broker_request req oms_id
    match broker.submit_order breq with
    | .error e => (s1, .error (.brokerFail e))
    | .ok result =>
      let order : OMSOrder :=
        { id := oms_id, broker := req.broker, symbol := req.symbol,
          side := req.side, qty := req.qty, order_type := req.order_type,
          status := result.status, submitted_at := now,
          broker_order_id := result.id, filled_qty := result.filled_qty,
          fill_price := result.fill_price, raw := some result }
      ({ s1 with orders := dictSet s1.orders oms_id order }, .ok order)

/-- A sequence of `submit` calls (each with its submission timestamp). -/
def OMS.submitMany (s : OMS) :
    List (OMSOrderRequest × ℚ) → OMS × List (Except OMSError OMSOrder)
  | [] => (s, [])
  | (r, t) :: rest =>
    let step := s.submit r t
    let tail := step.1.submitMany rest
    (tail.1, step.2 :: tail.2)

/-! ### Health checks (`self_heal/healthcheck.py`). -/

/-- Mutable fields of a `HealthCheck` together with its configuration.  The
probe call and wall-clock readings are external effects passed into `run`:
`probe` is the probe's outcome (`none` embeds a raised exception), `elapsed`
the measured duration, `now` the completion timestamp. -/
structure HealthCheckState where
  timeout : ℚ := 2
  max_failures : Nat := 3
  last_ok : Option ℚ := none
  last_fail : Option ℚ := none
  failures : Nat := 0
  deriving DecidableEq

/-- `HealthCheck.run`: a raised probe exception means `ok = False`; elapsed
time beyond `timeout` forces failure regardless of the probe result; success
stamps `last_ok` and clears the consecutive-failure counter, failure stamps
`last_fail` and increments it. -/
def HealthCheckState.run (st : HealthCheckState) (probe : Option Bool)
    (elapsed : ℚ) (now : ℚ) : HealthCheckState × Bool :=
  let ok := (probe == some true) && ! decide (elapsed > st.timeout)
  if ok then ({ st with last_ok := some now, failures := 0 }, true)
  else ({ st with last_fail := some now, failures := st.failures + 1 }, false)

/-- `HealthCheck.healthy`. -/
def HealthCheckState.healthy (st : HealthCheckState) : Bool :=
  decide (st.failures < st.max_failures)

/-! ### Watchdogs (`self_heal/watchdogs.py`). -/

/-- Mutable fields of a `Watchdog`.  Wall-clock readings are passed into
`heartbeat`/`check` as `now`. -/
structure WatchdogState where
  name : String
  timeout : ℚ
  last_heartbeat : ℚ
  triggered : Bool := false
  deriving DecidableEq

/-- `Watchdog.heartbeat`: reset the clock and clear the triggered flag. -/
def WatchdogState.heartbeat (st : WatchdogState) (now : ℚ) : WatchdogState :=
  { st with last_heartbeat := now, triggered := false }

/-- `Watchdog.check`: no-op while triggered; past the timeout it sets the
flag and invokes `on_timeout` (the returned `Bool`), whose outcome
`cbOutcome` is swallowed by `try/except: pass` — the result does not depend
on it. -/
def WatchdogState.check (st : WatchdogState) (now : ℚ)
    (cbOutcome : Except String Unit) : WatchdogState × Bool :=
  let _ := cbOutcome
  if st.triggered then (st, false)
  else if now - st.last_heartbeat > st.timeout then
    ({ st with triggered := true }, true)
  else (st, false)

/-- A sequence of `check` calls at the given times with no intervening
heartbeat; returns the final state and how often the callback fired.
`cb` gives the callback's outcome at each call time. -/
def WatchdogState.runChecks (st : WatchdogState)
    (cb : ℚ → Except String Unit) : List ℚ → WatchdogState × Nat
  | [] => (st, 0)
  | t :: ts =>
    let step := st.check t (cb t)
    let tail := step.1.runChecks cb ts
    (tail.1, (if step.2 then 1 else 0) + tail.2)

/-! ### Failover (`self_heal/failover.py`).

The targets' callables (`health_check`, `activate`, `deactivate`) are
external effects.  Per polling step they are embedded as: `probes i` — the
outcome of target `i`'s health probe (`none` embeds a raised exception);
`actOk i` — whether target `i`'s `activate()` returns normally; invocation
of `activate`/`deactivate` is recorded in an event list.  A `deactivate`
exception is swallowed (`try/except: pass`), so it needs no outcome flag:
control flow is identical either way. -/

/-- A `FailoverTarget`'s identity: its name and whether it has a
`deactivate` callable. -/
structure FOTarget where
  name : String
  hasDeactivate : Bool := false
  deriving DecidableEq, Inhabited

/-- Observable invocations of target callables during failover. -/
inductive FOEvent where
  | deactivated (name : String)
  | activated (name : String)
  deriving DecidableEq

/-- `FailoverManager` mutable state.  `fail_counts` is total over names
because the constructor initializes every target's counter to `0`. -/
structure FMState where
  targets : List FOTarget
  active_index : Nat := 0
  fail_counts : String → Nat
  max_failures : Nat := 3

/-- Pointwise update of the `fail_counts` dict. -/
def updCount (f : String → Nat) (k : String) (v : Nat) : String → Nat :=
  fun x => if x = k then v else f x

/-- `FailoverManager.current`. -/
def FMState.current (st : FMState) : FOTarget :=
  st.targets.getD st.active_index default

/-- The scanning loop of `_failover` (`for i, t in enumerate(self.targets)`):
walk all targets in list order, skipping the active index; the first target
whose probe passes is activated.  An exception from `health_check` or
`activate` skips to the next target (`except: continue`); a raising
`activate` was still invoked, so its event is recorded.  The `i` argument is
the enumeration index of the head of the remaining list. -/
def scanTargets (probes : Nat → Option Bool) (actOk : Nat → Bool)
    (active : Nat) : List FOTarget → Nat → List FOEvent × Option Nat
  | [], _ => ([], none)
  | t :: rest, i =>
    if i = active then scanTargets probes actOk active rest (i + 1)
    else
      match probes i with
      | some true =>
        if actOk i then ([.activated t.name], some i)
        else
          let r := scanTargets probes actOk active rest (i + 1)
          (.activated t.name :: r.1, r.2)
      | _ => scanTargets probes actOk active rest (i + 1)

/-- `FailoverManager._failover`: best-effort deactivation of the current
target, then the scan; on success the found target becomes active and its
failure count resets to zero; if nothing passes, `FailoverError` is raised
(the `Bool` component). -/
def FMState.failover (st : FMState) (probes : Nat → Option Bool)
    (actOk : Nat → Bool) : FMState × List FOEvent × Bool :=
  let old := st.current
  let dEvents := if old.hasDeactivate then [FOEvent.deactivated old.name] else []
  match scanTargets probes actOk st.active_index st.targets 0 with
  | (evs, some i) =>
    let nm := (st.targets.getD i default).name
    ({ st with active_index := i, fail_counts := updCount st.fail_counts nm 0 },
     dEvents ++ evs, false)
  | (evs, none) => (st, dEvents ++ evs, true)

/-- `FailoverManager._check_active`: a passing probe resets the active
target's failure count; a failing (or raising) probe increments it, and once
the count reaches `max_failures` a failover is triggered. -/
def FMState.checkActive (st : FMState) (probes : Nat → Option Bool)
    (actOk : Nat → Bool) : FMState × List FOEvent × Bool :=
  let nm := st.current.name
  if probes st.active_index = some true then
    ({ st with fail_counts := updCount st.fail_counts nm 0 }, [], false)
  else
    let fc := st.fail_counts nm + 1
    let st1 := { st with fail_counts := updCount st.fail_counts nm fc }
    if fc < st.max_failures then (st1, [], false)
    else st1.failover probes actOk

/-- The monitor loop: `k` polling steps, with `probes s i` the outcome of
target `i`'s probe at step `s`.  An unhandled `FailoverError` kills the
monitor thread, so the loop stops once raised. -/
def FMState.runChecks (st : FMState) (probes : Nat → Nat → Option Bool)
    (actOk : Nat → Bool) : Nat → FMState × List FOEvent × Bool
  | 0 => (st, [], false)
  | k + 1 =>
    let step := st.checkActive (probes 0) actOk
    if step.2.2 then (step.1, step.2.1, true)
    else
      let tail := step.1.runChecks (fun s => probes (s + 1)) actOk k
      (tail.1, step.2.1 ++ tail.2.1, tail.2.2)

/-- Count of `deactivated` events for a given name. -/
def countDeactivations (evs : List FOEvent) (nm : String) : Nat :=
  (evs.filter (fun e => e = FOEvent.deactivated nm)).length

/-! ### Mode Controller.

Modelled from the spec: `orchestration/modes.py` (the `ModeController` class
with `RunMode`, `ControlMode`, `RiskLimits` and `process_orders`) is imported
by `strategy_manager.py` but is not among the sources; the definitions below
follow §4.2 of the specification. -/

/-- Modelled from the spec: run mode (`LIVE`/`PAPER`/`SIM`), which "affects
nothing about gating logic itself". -/
inductive RunMode where
  | LIVE | PAPER | SIM
  deriving DecidableEq

/-- Modelled from the spec: control mode (`AUTO`/`SEMI_AUTO`/`MANUAL`). -/
inductive ControlMode where
  | AUTO | SEMI_AUTO | MANUAL
  deriving DecidableEq

/-- Modelled from the spec: per-strategy risk limits. -/
structure RiskLimits where
  max_gross_usd : ℚ := 25000000
  max_name_usd : ℚ := 5000000
  max_daily_turnover_usd : ℚ := 10000000
  allow_short : Bool := true
  deriving DecidableEq

/-- Modelled from the spec: the Mode Controller, a pure decision function
over externally owned state, holding accessor functions for current
position-per-name and turnover-traded-today, a single-order notional
threshold for `SEMI_AUTO`, and the set of names it tracks for the gross
exposure check. -/
structure ModeController where
  run_mode : RunMode
  control_mode : ControlMode
  limits : RiskLimits
  get_position : String → ℚ
  get_traded_today : ℚ
  semi_auto_threshold : ℚ
  tracked_names : List String

/-- Modelled from the spec: the four per-order risk checks of §4.2, each
evaluated against current committed exposure via the accessors. -/
def ModeController.passesRisk (mc : ModeController) (o : Order) : Bool :=
  let nm := base_symbol o.ticker
  let signed := if o.side = "BUY" then o.trade_notional else -o.trade_notional
  let newPos := mc.get_position nm + signed
  let gross := ((mc.tracked_names.filter (fun n => n ≠ nm)).map
    (fun n => |mc.get_position n|)).sum + |newPos|
  !(!mc.limits.allow_short && decide (newPos < 0)) &&
    ! decide (|newPos| > mc.limits.max_name_usd) &&
    ! decide (gross > mc.limits.max_gross_usd) &&
    ! decide (mc.get_traded_today + o.trade_notional >
      mc.limits.max_daily_turnover_usd)

/-- Modelled from the spec: bucket decision for one proposed order. -/
inductive OrderDecision where
  | approved | queued | rejected
  deriving DecidableEq

/-- Modelled from the spec: risk-failing orders are rejected; risk-passing
orders are queued under `MANUAL`, threshold-gated under `SEMI_AUTO`, and
approved under `AUTO`. -/
def ModeController.classify (mc : ModeController) (o : Order) : OrderDecision :=
  if !mc.passesRisk o then .rejected
  else
    match mc.control_mode with
    | .MANUAL => .queued
    | .SEMI_AUTO =>
      if o.trade_notional > mc.semi_auto_threshold then .queued else .approved
    | .AUTO => .approved

/-- Modelled from the spec: append one classified order to its bucket. -/
def ModeController.routeOrder (mc : ModeController) (g : Gated) (o : Order) :
    Gated :=
  match mc.classify o with
  | .approved => { g with approved := g.approved ++ [o] }
  | .queued => { g with queued := g.queued ++ [o] }
  | .rejected => { g with rejected := g.rejected ++ [o] }

/-- Modelled from the spec: `process_orders` classifies each proposed order
in input order into exactly one bucket, preserving order within buckets. -/
def ModeController.process_orders (mc : ModeController) (proposed : List Order) :
    Gated :=
  proposed.foldl mc.routeOrder ⟨[], [], []⟩

/-! ### Concrete instances used by witnesses and counterexamples. -/

/-- A concrete strategy spec. -/
def exSpec : StrategySpec :=
  { id := "s1", name := "alpha one", family := "macro",
    engine := "strategies.alpha:Adapter", yaml := "s1.yaml" }

/-- An adapter whose tick succeeds but proposes no trades. -/
def exAdapterNoTrades : Adapter Unit :=
  { mark_to_market := fun _ _ => .ok [("pnl_usd", 0)]
    generate_signals := fun _ => .ok none
    propose_trades := fun _ _ => .ok (some []) }

/-- A handle currently in `ERROR` health whose adapter proposes no trades. -/
def exHandleError : Handle Unit :=
  { spec := exSpec, adapter := exAdapterNoTrades,
    process_orders := fun _ => .ok ⟨[], [], []⟩,
    state := { health := "ERROR" } }

/-- A concrete proposed order. -/
def exOrder : Order :=
  { ticker := "AAPL_US", side := "BUY", trade_notional := 100 }

/-- An adapter that proposes exactly `exOrder`. -/
def exAdapterOneTrade : Adapter Unit :=
  { mark_to_market := fun _ _ => .ok [("pnl_usd", 5)]
    generate_signals := fun _ => .ok none
    propose_trades := fun _ _ => .ok (some [exOrder]) }

/-- Gating outcome that approves exactly `exOrder`. -/
def exGatedApprove : Gated := ⟨[exOrder], [], []⟩

/-- A handle in `ERROR` health whose tick proposes and approves `exOrder`. -/
def exHandleOneTrade : Handle Unit :=
  { spec := exSpec, adapter := exAdapterOneTrade,
    process_orders := fun _ => .ok exGatedApprove,
    state := { health := "ERROR" } }

/-! ### C1 — per-row isolation of load failures. -/

/-- A registry row whose adapter reference does not resolve. -/
def exRowBad : Row := { id := "r1", engine := some "missing.module:Adapter" }

/-- A registry row whose adapter reference resolves. -/
def exRowGood : Row := { id := "r2", engine := some "strategies.alpha:Adapter" }

/-- An adapter resolution that fails for `exRowBad`'s spec and succeeds
otherwise. -/
def exResolve : StrategySpec → Except String (Adapter Unit) :=
  fun spec =>
    if spec.id = "r1" then .error "ModuleNotFoundError: missing.module"
    else .ok exAdapterNoTrades

/-- A controller construction for the loaded specs. -/
def exMkController :
    StrategySpec → (List Order → Except String Gated) × List (String × String) :=
  fun _ => (fun _ => .ok ⟨[], [], []⟩, [("control_mode", "SEMI_AUTO")])

/-! ### C3 — MANUAL control mode queues risk-passing orders. -/

/-- A `MANUAL`-mode controller over a flat book. -/
def exController : ModeController :=
  { run_mode := .LIVE, control_mode := .MANUAL, limits := {},
    get_position := fun _ => 0, get_traded_today := 0,
    semi_auto_threshold := 50000, tracked_names := [] }

/-! ### C7 — Watchdog single-fire per silence episode. -/

/-- A watchdog with a 1-second timeout last heartbeaten at time 0. -/
def exWatchdog : WatchdogState :=
  { name := "data-feed", timeout := 1, last_heartbeat := 0 }

/-! ### C5 / C10 — OMS submission identity and failure semantics. -/

/-- The ids of the successfully allocated orders in a run of submits. -/
def allocatedIds (rs : List (Except OMSError OMSOrder)) : List String :=
  rs.filterMap fun r =>
    match r with
    | .ok o => some o.id
    | .error _ => none

/-- A broker adapter whose submissions always succeed. -/
def exBrokerOk : Broker :=
  { submit_order := fun breq =>
      .ok { id := some ("BRK-" ++ breq.client_order_id), status := "filled" } }

/-- A broker adapter whose submissions always raise. -/
def exBrokerFail : Broker :=
  { submit_order := fun _ => .error "ConnectionError" }

/-- An OMS with one healthy registered broker. -/
def exOMS : OMS := { brokers := [("paper", exBrokerOk)] }

/-- An OMS whose `paper` broker raises and whose `backup` broker works. -/
def exOMSFail : OMS :=
  { brokers := [("paper", exBrokerFail), ("backup", exBrokerOk)] }

/-- A concrete submission request. -/
def exReq : OMSOrderRequest :=
  { broker := "paper", symbol := "AAPL", side := "buy", qty := 10 }

/-- A concrete submission request against the backup broker. -/
def exReqBackup : OMSOrderRequest :=
  { broker := "backup", symbol := "AAPL", side := "buy", qty := 10 }

/-! ### C9 — snapshot round-trip. -/

/-- A freshly constructed handle (state at its defaults). -/
def exHandleFresh : Handle Unit :=
  { spec := exSpec, adapter := exAdapterNoTrades,
    process_orders := fun _ => .ok ⟨[], [], []⟩ }

/-- A running state with positions and turnover. -/
def exStateRun : StrategyState :=
  { health := "RUNNING", trades_sent_today := 5,
    positions := [("AAPL_US", 100)], pnl_day := 3, pnl_cum := 7, last_ts := 42 }

/-- The same handle after some ticks. -/
def exHandleRun : Handle Unit := { exHandleFresh with state := exStateRun }

/-- `self.fail_counts[active.name] = v` on the manager state. -/
def bumpCount (st : FMState) (v : Nat) : FMState :=
  { st with fail_counts := updCount st.fail_counts st.current.name v }

/-- Two failover targets: a primary with a deactivate action and a backup. -/
def exTargets : List FOTarget :=
  [{ name := "primary-broker", hasDeactivate := true },
   { name := "backup-broker" }]

/-- A failover manager state right after construction (`max_failures = 3`,
primary active, all counters zero). -/
def exFM : FMState := { targets := exTargets, fail_counts := fun _ => 0 }

/-- Probe outcomes: the primary (index 0) always fails its health check, the
backup always passes. -/
def exProbes : Nat → Nat → Option Bool :=
  fun _ i => if i = 0 then some false else some true

/-! ## Theorems -/

theorem lookup_dictSet_same {β : Type} (m : List (String × β)) (k : String)
    (v : β) : (dictSet m k v).lookup k = some v := by
  induction m with
  | nil => simp [dictSet, List.lookup_cons]
  | cons p rest ih =>
    obtain ⟨k', v'⟩ := p
    by_cases h : k' = k
    · simp [dictSet, h, List.lookup_cons]
    · simp only [dictSet, if_neg h]
      rw [List.lookup_cons]
      simp [beq_false_of_ne (Ne.symm h), ih]

theorem lookup_dictSet_ne {β : Type} (m : List (String × β)) (k k' : String)
    (v : β) (hne : k' ≠ k) :
    (dictSet m k v).lookup k' = m.lookup k' := by
  induction m with
  | nil => simp [dictSet, List.lookup_cons, beq_false_of_ne hne]
  | cons p rest ih =>
    obtain ⟨k₀, v₀⟩ := p
    by_cases h : k₀ = k
    · subst h
      simp [dictSet, List.lookup_cons, beq_false_of_ne hne]
    · simp only [dictSet, if_neg h]
      rw [List.lookup_cons, List.lookup_cons]
      by_cases h' : k' = k₀
      · simp [h']
      · simp [beq_false_of_ne h', ih]

theorem dictGetD_dictSet_same {β : Type} (m : List (String × β)) (k : String)
    (v d : β) : dictGetD (dictSet m k v) k d = v := by
  simp [dictGetD, lookup_dictSet_same]

theorem dictGetD_dictSet_ne {β : Type} (m : List (String × β)) (k k' : String)
    (v d : β) (hne : k' ≠ k) :
    dictGetD (dictSet m k v) k' d = dictGetD m k' d := by
  simp [dictGetD, lookup_dictSet_ne m k k' v hne]

theorem toDigitsCore_eq_natCharsAux :
    ∀ fuel n ds, n < fuel →
      Nat.toDigitsCore 10 fuel n ds = natCharsAux fuel n ++ ds := by
  intro fuel
  induction fuel with
  | zero => intro n ds h; omega
  | succ f ih =>
    intro n ds h
    have hdiv : n / 10 = 0 ↔ n < 10 := by omega
    by_cases h10 : n < 10
    · have h0 : n / 10 = 0 := hdiv.mpr h10
      have hmod : n % 10 = n := Nat.mod_eq_of_lt h10
      simp [Nat.toDigitsCore, natCharsAux, h0, h10, hmod]
    · have h0 : n / 10 ≠ 0 := fun hc => h10 (hdiv.mp hc)
      have hlt : n / 10 < f := by omega
      simp only [Nat.toDigitsCore, natCharsAux, h0, if_neg h10, if_neg h0]
      rw [ih (n / 10) _ hlt, List.append_assoc]
      rfl

theorem natCharsAux_irrel :
    ∀ f₁ f₂ n, n < f₁ → n < f₂ → natCharsAux f₁ n = natCharsAux f₂ n := by
  intro f₁
  induction f₁ with
  | zero => intro f₂ n h; omega
  | succ f ih =>
    intro f₂ n h₁ h₂
    cases f₂ with
    | zero => omega
    | succ f₂' =>
      by_cases h10 : n < 10
      · simp [natCharsAux, h10]
      · have : n / 10 < f := by omega
        have : n / 10 < f₂' := by omega
        simp only [natCharsAux, if_neg h10]
        rw [ih f₂' (n / 10) (by omega) (by omega)]

theorem decDigits_append_singleton (l : List Char) (c : Char) :
    decDigits (l ++ [c]) = decDigits l * 10 + digitVal c := by
  simp [decDigits, List.foldl_append]

theorem digitVal_digitChar (m : Nat) (h : m < 10) :
    digitVal (Nat.digitChar m) = m := by
  interval_cases m <;> rfl

theorem decDigits_natCharsAux :
    ∀ fuel n, n < fuel → decDigits (natCharsAux fuel n) = n := by
  intro fuel
  induction fuel with
  | zero => intro n h; omega
  | succ f ih =>
    intro n h
    by_cases h10 : n < 10
    · simp only [natCharsAux, if_pos h10, decDigits, List.foldl]
      simp [digitVal_digitChar n h10]
    · have hlt : n / 10 < f := by omega
      simp only [natCharsAux, if_neg h10]
      rw [decDigits_append_singleton, ih (n / 10) hlt,
        digitVal_digitChar (n % 10) (by omega)]
      omega

theorem natRepr_injective : Function.Injective Nat.repr := by
  intro a b h
  have hdata : (Nat.toDigits 10 a) = (Nat.toDigits 10 b) := by
    have := congrArg String.data h
    simpa [Nat.repr, List.asString] using this
  have ha : Nat.toDigits 10 a = natCharsAux (a + 1) a ++ [] :=
    toDigitsCore_eq_natCharsAux (a + 1) a [] (Nat.lt_succ_self a)
  have hb : Nat.toDigits 10 b = natCharsAux (b + 1) b ++ [] :=
    toDigitsCore_eq_natCharsAux (b + 1) b [] (Nat.lt_succ_self b)
  have hmax : natCharsAux (a + b + 1) a = natCharsAux (a + b + 1) b := by
    rw [← natCharsAux_irrel (a + 1) (a + b + 1) a (by omega) (by omega),
      ← natCharsAux_irrel (b + 1) (a + b + 1) b (by omega) (by omega)]
    have := hdata
    rw [ha, hb] at this
    simpa using this
  have := congrArg decDigits hmax
  rwa [decDigits_natCharsAux (a + b + 1) a (by omega),
    decDigits_natCharsAux (a + b + 1) b (by omega)] at this

/-! ### Helper lemmas about the tick fill stage. -/

theorem mtmState_positions (st : StrategyState) (mtm : List (String × ℚ))
    (now : Int) : (mtmState st mtm now).positions = st.positions := rfl

theorem mtmState_trades (st : StrategyState) (mtm : List (String × ℚ))
    (now : Int) :
    (mtmState st mtm now).trades_sent_today = st.trades_sent_today := rfl

theorem mtmState_health (st : StrategyState) (mtm : List (String × ℚ))
    (now : Int) : (mtmState st mtm now).health = st.health := rfl

theorem paperFills_foldl_trades (A : List Order) (now : Int)
    (st : StrategyState) :
    ((paperFills A now).foldl applyFill st).trades_sent_today =
      st.trades_sent_today + (A.map (fun o => |o.trade_notional|)).sum := by
  induction A generalizing st with
  | nil => simp [paperFills]
  | cons o rest ih =>
    simp only [paperFills, List.map_cons, List.foldl_cons, List.sum_cons]
    rw [show (List.map (fun r : Order =>
        ({ ticker := r.ticker, side := r.side, filled_usd := r.trade_notional,
           status := "FILLED", avg_price_bps := r.px_hint_bps, ts := now } :
          Fill)) rest) = paperFills rest now from rfl, ih]
    simp [applyFill, add_assoc]

theorem paperFills_foldl_positions (A : List Order) (now : Int)
    (st : StrategyState) (b : String) :
    dictGetD ((paperFills A now).foldl applyFill st).positions b 0 =
      dictGetD st.positions b 0 +
        ((A.filter (fun o => base_symbol o.ticker = b)).map
          (fun o => if sideIsBuy o.side then o.trade_notional
            else -o.trade_notional)).sum := by
  induction A generalizing st with
  | nil => simp [paperFills]
  | cons o rest ih =>
    simp only [paperFills, List.map_cons, List.foldl_cons, List.filter_cons]
    rw [show (List.map (fun r : Order =>
        ({ ticker := r.ticker, side := r.side, filled_usd := r.trade_notional,
           status := "FILLED", avg_price_bps := r.px_hint_bps, ts := now } :
          Fill)) rest) = paperFills rest now from rfl, ih]
    by_cases hb : base_symbol o.ticker = b
    · simp only [hb, decide_True, if_true, List.map_cons, List.sum_cons]
      have : dictGetD (applyFill st
          { ticker := o.ticker, side := o.side, filled_usd := o.trade_notional,
            status := "FILLED", avg_price_bps := o.px_hint_bps,
            ts := now }).positions b 0 =
          dictGetD st.positions b 0 +
            (if sideIsBuy o.side then o.trade_notional
             else -o.trade_notional) := by
        simp only [applyFill, hb]
        rw [dictGetD_dictSet_same]
      rw [this, add_assoc]
    · simp only [hb, decide_False, if_false]
      have : dictGetD (applyFill st
          { ticker := o.ticker, side := o.side, filled_usd := o.trade_notional,
            status := "FILLED", avg_price_bps := o.px_hint_bps,
            ts := now }).positions b 0 = dictGetD st.positions b 0 := by
        simp only [applyFill]
        exact dictGetD_dictSet_ne _ _ _ _ _ (fun hc => hb hc.symm)
      rw [this]
      simp

/-! ### C2 — health recovery on a subsequent successful tick. -/

/-- C2 counterexample: a handle in `ERROR` health whose tick succeeds at
every stage but whose `propose_trades` returns no orders ends the tick
successfully with zero routed orders, yet its health stays `ERROR` — it is
not returned to `RUNNING` as the claim states, because the empty-proposal
path returns before the `health = "RUNNING"` assignment. -/
theorem C2_counterexample :
    (tick_once exHandleError 100 none).2 = TickResult.noTrades none 0 ∧
    (tick_once exHandleError 100 none).1.state.health = "ERROR" :=
  ⟨rfl, rfl⟩

/-- C2 (amended): for a handle in any health (in particular `ERROR`), a tick
in which mark-to-market, signal generation and trade proposal all succeed
sets health to `RUNNING` provided at least one order is proposed and gating
succeeds; if no orders are proposed the tick ends successfully with zero
routed orders (the `noTrades` result) but leaves health unchanged. -/
theorem C2_error_health_recovery {Sig : Type} (h : Handle Sig) (now : Int)
    (router_send : Option (List Order → List Fill))
    (mtm : List (String × ℚ)) (sigs : Option Sig)
    (hmtm : h.adapter.mark_to_market h.state now = Except.ok mtm)
    (hsig : h.adapter.generate_signals now = Except.ok sigs) :
    (∀ os g, h.adapter.propose_trades (mtmState h.state mtm now) now =
        Except.ok (some os) → os ≠ [] →
      h.process_orders os = Except.ok g →
      (tick_once h now router_send).1.state.health = "RUNNING") ∧
    (∀ osOpt, h.adapter.propose_trades (mtmState h.state mtm now) now =
        Except.ok osOpt → osOpt.getD [] = [] →
      (tick_once h now router_send).1.state.health = h.state.health ∧
      (tick_once h now router_send).2 =
        TickResult.noTrades sigs (dictGetD mtm "pnl_usd" 0)) := by
  constructor
  · intro os g hpro hos hgat
    simp only [tick_once, hmtm, hsig, hpro]
    cases os with
    | nil => exact absurd rfl hos
    | cons o rest =>
      simp only [Option.getD_some, List.isEmpty_cons, hgat]
      cases hfg : h.process_orders (o :: rest) with
      | error e => rw [hfg] at hgat; cases hgat
      | ok g' => simp [hfg]
  · intro osOpt hpro hempty
    simp only [tick_once, hmtm, hsig, hpro]
    cases osOpt with
    | none => exact ⟨rfl, rfl⟩
    | some os =>
      simp only [Option.getD_some] at hempty
      subst hempty
      exact ⟨rfl, rfl⟩

/-- C2 witness: a concrete `ERROR`-health handle whose next tick succeeds
with one proposed order is returned to `RUNNING`. -/
theorem C2_error_health_recovery_witness :
    exHandleOneTrade.state.health = "ERROR" ∧
    (tick_once exHandleOneTrade 50 none).1.state.health = "RUNNING" :=
  ⟨rfl,
    (C2_error_health_recovery exHandleOneTrade 50 none [("pnl_usd", 5)] none
        rfl rfl).1 [exOrder] exGatedApprove rfl (by simp) rfl⟩

/-! ### C4 — paper-fill fallback. -/

/-- C4: with no `router_send` supplied, every approved order is simulated as
immediately filled at its proposed notional: the final position of each base
symbol is the prior position plus the sum of the approved notionals for that
base symbol signed positively for a BUY side and negatively otherwise, the
strategy's `trades_sent_today` grows by the sum of the unsigned notionals in
the same fill-application step, and the tick reports one fill per approved
order. -/
theorem C4_paper_fill_updates {Sig : Type} (h : Handle Sig) (now : Int)
    (mtm : List (String × ℚ)) (sigs : Option Sig) (os : List Order) (g : Gated)
    (hmtm : h.adapter.mark_to_market h.state now = Except.ok mtm)
    (hsig : h.adapter.generate_signals now = Except.ok sigs)
    (hpro : h.adapter.propose_trades (mtmState h.state mtm now) now =
      Except.ok (some os))
    (hos : os ≠ [])
    (hgat : h.process_orders os = Except.ok g) :
    (∀ b, dictGetD (tick_once h now none).1.state.positions b 0 =
        dictGetD h.state.positions b 0 +
          ((g.approved.filter (fun o => base_symbol o.ticker = b)).map
            (fun o => if sideIsBuy o.side then o.trade_notional
              else -o.trade_notional)).sum) ∧
    (tick_once h now none).1.state.trades_sent_today =
      h.state.trades_sent_today +
        (g.approved.map (fun o => |o.trade_notional|)).sum ∧
    (tick_once h now none).2 =
      TickResult.ok sigs g.approved.length g.queued.length g.rejected.length
        g.approved.length (dictGetD mtm "pnl_usd" 0)
        (tick_once h now none).1.state.positions := by
  have hstep : tick_once h now none =
      ({ h with state := { (paperFills g.approved now).foldl applyFill
            (mtmState h.state mtm now) with health := "RUNNING" } },
       TickResult.ok sigs g.approved.length g.queued.length g.rejected.length
         (paperFills g.approved now).length (dictGetD mtm "pnl_usd" 0)
         ((paperFills g.approved now).foldl applyFill
           (mtmState h.state mtm now)).positions) := by
    simp only [tick_once, hmtm, hsig, hpro]
    cases os with
    | nil => exact absurd rfl hos
    | cons o rest =>
      simp only [Option.getD_some, List.isEmpty_cons, hgat]
      by_cases happ : g.approved = []
      · simp [happ, paperFills]
      · have : g.approved.isEmpty = false := by
          cases hga : g.approved with
          | nil => exact absurd hga happ
          | cons a l => rfl
        simp [this]
  refine ⟨?_, ?_, ?_⟩
  · intro b
    rw [hstep]
    simpa [mtmState_positions] using
      paperFills_foldl_positions g.approved now (mtmState h.state mtm now) b
  · rw [hstep]
    simpa [mtmState_trades] using
      paperFills_foldl_trades g.approved now (mtmState h.state mtm now)
  · rw [hstep]
    simp [paperFills]

/-- C4 witness: the concrete one-order handle ends its tick with the base
symbol position increased by the notional and the turnover counter by its
absolute value. -/
theorem C4_paper_fill_updates_witness :
    dictGetD (tick_once exHandleOneTrade 50 none).1.state.positions
      "AAPL_US" 0 = 100 ∧
    (tick_once exHandleOneTrade 50 none).1.state.trades_sent_today = 100 := by
  have hmain := C4_paper_fill_updates exHandleOneTrade 50 [("pnl_usd", 5)]
    none [exOrder] exGatedApprove rfl rfl rfl (by simp) rfl
  have hbase : base_symbol "AAPL_US" = "AAPL_US" := by decide
  have hbuy : sideIsBuy "BUY" = true := by decide
  refine ⟨?_, ?_⟩
  · rw [hmain.1 "AAPL_US"]
    simp [exHandleOneTrade, exGatedApprove, exOrder, dictGetD, hbase, hbuy]
  · rw [hmain.2.1]
    simp [exHandleOneTrade, exGatedApprove, exOrder]

theorem lookup_dictSet_isSome {β : Type} (m : List (String × β))
    (k k' : String) (v : β) :
    (dictSet m k v).lookup k' ≠ none ↔ k' = k ∨ m.lookup k' ≠ none := by
  by_cases h : k' = k
  · simp [h, lookup_dictSet_same]
  · simp [lookup_dictSet_ne m k k' v h, h]

theorem loadRows_fst_cons_ok {Sig : Type}
    (ra : StrategySpec → Except String (Adapter Sig))
    (mk : StrategySpec →
      (List Order → Except String Gated) × List (String × String))
    (defRM : String) (r : Row) (rest : List Row)
    (handles : List (String × Handle Sig)) (hd : Handle Sig)
    (hb : build_handle ra mk (rowToSpec defRM r) = Except.ok hd) :
    (loadRows ra mk defRM (r :: rest) handles).1 =
      (loadRows ra mk defRM rest
        (dictSet handles (rowToSpec defRM r).id hd)).1 := by
  rcases hrec : loadRows ra mk defRM rest
      (dictSet handles (rowToSpec defRM r).id hd) with ⟨hs, res⟩
  cases res <;> simp [loadRows, hb, hrec]

theorem loadRows_preserves {Sig : Type}
    (ra : StrategySpec → Except String (Adapter Sig))
    (mk : StrategySpec →
      (List Order → Except String Gated) × List (String × String))
    (defRM : String) :
    ∀ (rows : List Row) (handles : List (String × Handle Sig)) (sid : String),
      handles.lookup sid ≠ none →
      (loadRows ra mk defRM rows handles).1.lookup sid ≠ none := by
  intro rows
  induction rows with
  | nil => intro handles sid h; exact h
  | cons r rest ih =>
    intro handles sid h
    cases hb : build_handle ra mk (rowToSpec defRM r) with
    | error e => simpa [loadRows, hb] using h
    | ok hd =>
      rw [loadRows_fst_cons_ok ra mk defRM r rest handles hd hb]
      exact ih _ sid ((lookup_dictSet_isSome _ _ _ _).mpr (Or.inr h))

theorem loadRows_abort {Sig : Type}
    (ra : StrategySpec → Except String (Adapter Sig))
    (mk : StrategySpec →
      (List Order → Except String Gated) × List (String × String))
    (defRM : String) (e : String) :
    ∀ (pre : List Row) (bad : Row) (post : List Row)
      (handles : List (String × Handle Sig)),
      (∀ r ∈ pre, ∃ hd, build_handle ra mk (rowToSpec defRM r) = Except.ok hd) →
      build_handle ra mk (rowToSpec defRM bad) = Except.error e →
      (loadRows ra mk defRM (pre ++ bad :: post) handles).2 = Except.error e ∧
      (∀ r ∈ pre,
        (loadRows ra mk defRM (pre ++ bad :: post) handles).1.lookup
          (rowToSpec defRM r).id ≠ none) ∧
      (∀ sid,
        (loadRows ra mk defRM (pre ++ bad :: post) handles).1.lookup sid ≠
          none →
        handles.lookup sid ≠ none ∨ ∃ r ∈ pre, sid = (rowToSpec defRM r).id) := by
  intro pre
  induction pre with
  | nil =>
    intro bad post handles _ hbad
    refine ⟨by simp [loadRows, hbad], by simp, ?_⟩
    intro sid h
    exact Or.inl (by simpa [loadRows, hbad] using h)
  | cons r pre' ih =>
    intro bad post handles hpre hbad
    obtain ⟨hd, hb⟩ := hpre r (List.mem_cons_self r pre')
    have hpre' : ∀ r' ∈ pre',
        ∃ hd', build_handle ra mk (rowToSpec defRM r') = Except.ok hd' :=
      fun r' hr' => hpre r' (List.mem_cons_of_mem r hr')
    have hmain := ih bad post (dictSet handles (rowToSpec defRM r).id hd)
      hpre' hbad
    have hfst : (loadRows ra mk defRM ((r :: pre') ++ bad :: post) handles).1 =
        (loadRows ra mk defRM (pre' ++ bad :: post)
          (dictSet handles (rowToSpec defRM r).id hd)).1 :=
      loadRows_fst_cons_ok ra mk defRM r (pre' ++ bad :: post) handles hd hb
    have hsnd : (loadRows ra mk defRM ((r :: pre') ++ bad :: post) handles).2 =
        Except.error e := by
      rcases hrec : loadRows ra mk defRM (pre' ++ bad :: post)
          (dictSet handles (rowToSpec defRM r).id hd) with ⟨hs, res⟩
      have : res = Except.error e := by
        have := hmain.1
        rw [hrec] at this
        exact this
      subst this
      simp [loadRows, hb, hrec]
    refine ⟨hsnd, ?_, ?_⟩
    · intro r' hr'
      rw [hfst]
      rcases List.mem_cons.mp hr' with hEq | hmem
      · subst hEq
        exact loadRows_preserves ra mk defRM _ _ _
          ((lookup_dictSet_isSome _ _ _ _).mpr (Or.inl rfl))
      · exact hmain.2.1 r' hmem
    · intro sid h
      rw [hfst] at h
      rcases hmain.2.2 sid h with hh | ⟨r', hr', hsid⟩
      · rcases (lookup_dictSet_isSome _ _ _ _).mp hh with hEq | hh'
        · exact Or.inr ⟨r, List.mem_cons_self r pre', hEq⟩
        · exact Or.inl hh'
      · exact Or.inr ⟨r', List.mem_cons_of_mem r hr', hsid⟩

/-- C1 counterexample: loading a registry of two rows where the first row's
adapter reference does not resolve makes `load_from_registry` itself fail
(raise), and the second (perfectly loadable) row is never built nor its id
returned — contradicting "every other filtered row is still built … and the
orchestrator as a whole does not fail". -/
theorem C1_counterexample :
    (load_from_registry exResolve exMkController "PAPER"
        (Except.ok [exRowBad, exRowGood]) [] none none none none).2 =
      Except.error "ModuleNotFoundError: missing.module" ∧
    (load_from_registry exResolve exMkController "PAPER"
        (Except.ok [exRowBad, exRowGood]) [] none none none none).1.lookup
      "r2" = none :=
  ⟨rfl, rfl⟩

/-- C1 (amended): a row whose adapter reference cannot be resolved (or whose
handle construction otherwise fails) aborts the whole `load_from_registry`
call: the call raises the row's construction error and returns no ids; rows
before the failing row have already been built and registered in the
orchestrator's handle map, while the failing row and every row after it are
not registered. -/
theorem C1_row_failure_aborts_load {Sig : Type}
    (resolveAdapter : StrategySpec → Except String (Adapter Sig))
    (mkController : StrategySpec →
      (List Order → Except String Gated) × List (String × String))
    (runModeName : String) (rows pre post : List Row) (bad : Row)
    (handles : List (String × Handle Sig)) (e : String)
    (ids : Option (List String)) (family : Option String)
    (tags : Option (List String)) (limit : Option Nat)
    (hsplit : applyFilters rows ids family tags limit = pre ++ bad :: post)
    (hpre : ∀ r ∈ pre, ∃ hd,
      build_handle resolveAdapter mkController
        (rowToSpec runModeName r) = Except.ok hd)
    (hbad : build_handle resolveAdapter mkController
      (rowToSpec runModeName bad) = Except.error e) :
    (load_from_registry resolveAdapter mkController runModeName
        (Except.ok rows) handles ids family tags limit).2 = Except.error e ∧
    (∀ r ∈ pre,
      (load_from_registry resolveAdapter mkController runModeName
        (Except.ok rows) handles ids family tags limit).1.lookup
          (rowToSpec runModeName r).id ≠ none) ∧
    (∀ sid,
      (load_from_registry resolveAdapter mkController runModeName
        (Except.ok rows) handles ids family tags limit).1.lookup sid ≠ none →
      handles.lookup sid ≠ none ∨
        ∃ r ∈ pre, sid = (rowToSpec runModeName r).id) := by
  have := loadRows_abort resolveAdapter mkController runModeName e pre bad
    post handles hpre hbad
  simpa [load_from_registry, hsplit] using this

/-- C1 witness: with a loadable row before the failing row, the load still
raises, the earlier row is registered, and nothing else is. -/
theorem C1_row_failure_aborts_load_witness :
    (load_from_registry exResolve exMkController "PAPER"
        (Except.ok [exRowGood, exRowBad]) [] none none none none).2 =
      Except.error "ModuleNotFoundError: missing.module" ∧
    (load_from_registry exResolve exMkController "PAPER"
        (Except.ok [exRowGood, exRowBad]) [] none none none none).1.lookup
      "r2" ≠ none := by
  have hmain := C1_row_failure_aborts_load exResolve exMkController "PAPER"
    [exRowGood, exRowBad] [exRowGood] [] exRowBad []
    "ModuleNotFoundError: missing.module" none none none none rfl
    (by intro r hr
        simp only [List.mem_singleton] at hr
        subst hr
        exact ⟨{ spec := rowToSpec "PAPER" exRowGood,
                 adapter := exAdapterNoTrades,
                 process_orders := fun _ => Except.ok ⟨[], [], []⟩,
                 control_desc := [("control_mode", "SEMI_AUTO")],
                 state := {} }, rfl⟩)
    rfl
  exact ⟨hmain.1, hmain.2.1 exRowGood (List.mem_singleton.mpr rfl)⟩

theorem routeOrder_foldl_buckets (mc : ModeController) :
    ∀ (l : List Order) (g₀ : Gated),
      (l.foldl mc.routeOrder g₀).approved =
        g₀.approved ++ l.filter (fun o => mc.classify o = .approved) ∧
      (l.foldl mc.routeOrder g₀).queued =
        g₀.queued ++ l.filter (fun o => mc.classify o = .queued) ∧
      (l.foldl mc.routeOrder g₀).rejected =
        g₀.rejected ++ l.filter (fun o => mc.classify o = .rejected) := by
  intro l
  induction l with
  | nil => simp
  | cons o rest ih =>
    intro g₀
    rcases hc : mc.classify o with _ | _ | _ <;>
      simp [ModeController.routeOrder, hc, ih, List.filter_cons]

theorem classify_manual (mc : ModeController) (o : Order)
    (hmanual : mc.control_mode = ControlMode.MANUAL) :
    mc.classify o = (if mc.passesRisk o then OrderDecision.queued
      else OrderDecision.rejected) := by
  by_cases hp : mc.passesRisk o <;> simp [ModeController.classify, hp, hmanual]

/-- C3: under `MANUAL` control mode, an order that passes every risk check
lands in the `queued` bucket, and the `approved` bucket is empty — in
particular no risk-passing order ever appears in `approved`.  `process_orders`
never consults the run mode, so this holds for every run mode
(`LIVE`/`PAPER`/`SIM`). -/
theorem C3_manual_queues_not_approves (mc : ModeController)
    (proposed : List Order)
    (hmanual : mc.control_mode = ControlMode.MANUAL) :
    (mc.process_orders proposed).approved = [] ∧
    ∀ o ∈ proposed, mc.passesRisk o = true →
      o ∈ (mc.process_orders proposed).queued := by
  have hb := routeOrder_foldl_buckets mc proposed ⟨[], [], []⟩
  constructor
  · rw [show (mc.process_orders proposed).approved =
        proposed.filter (fun o => mc.classify o = .approved) from hb.1]
    rw [List.filter_eq_nil_iff]
    intro o _
    rw [classify_manual mc o hmanual]
    by_cases hp : mc.passesRisk o <;> simp [hp]
  · intro o ho hp
    rw [show (mc.process_orders proposed).queued =
        proposed.filter (fun o => mc.classify o = .queued) from hb.2.1]
    rw [List.mem_filter]
    refine ⟨ho, ?_⟩
    rw [classify_manual mc o hmanual, hp]
    simp

theorem exController_passesRisk : exController.passesRisk exOrder = true := by
  simp only [ModeController.passesRisk, exController, exOrder]
  norm_num

/-- C3 witness: a concrete risk-passing order under a `MANUAL`, `LIVE`
controller is queued and the approved bucket is empty. -/
theorem C3_manual_queues_not_approves_witness :
    (exController.process_orders [exOrder]).approved = [] ∧
    exOrder ∈ (exController.process_orders [exOrder]).queued := by
  have hmain := C3_manual_queues_not_approves exController [exOrder] rfl
  exact ⟨hmain.1, hmain.2 exOrder (by simp) exController_passesRisk⟩

/-! ### C8 — HealthCheck.run semantics. -/

/-- C8: `run` returns failure whenever the probe raises (embedded as
`probe = none`, never propagated — `run` is total) or whenever elapsed time
exceeds `timeout` regardless of the probe result; on success it stamps
`last_ok` and clears the consecutive-failure counter, on failure it stamps
`last_fail` and increments the counter by one; `healthy()` holds iff the
counter is strictly below `max_failures`. -/
theorem C8_healthcheck_run (st : HealthCheckState) (probe : Option Bool)
    (elapsed now : ℚ) :
    ((probe = none ∨ elapsed > st.timeout) →
      (st.run probe elapsed now).2 = false) ∧
    (probe = some true → ¬ elapsed > st.timeout →
      (st.run probe elapsed now).2 = true ∧
      (st.run probe elapsed now).1.last_ok = some now ∧
      (st.run probe elapsed now).1.failures = 0) ∧
    ((st.run probe elapsed now).2 = false →
      (st.run probe elapsed now).1.last_fail = some now ∧
      (st.run probe elapsed now).1.failures = st.failures + 1) ∧
    (∀ s : HealthCheckState, s.healthy = true ↔ s.failures < s.max_failures) := by
  refine ⟨?_, ?_, ?_, ?_⟩
  · rintro (hnone | hslow)
    · subst hnone
      simp [HealthCheckState.run]
    · simp [HealthCheckState.run, hslow]
  · intro hp hfast
    subst hp
    simp [HealthCheckState.run, hfast]
  · intro hfail
    by_cases hok : (probe == some true) && ! decide (elapsed > st.timeout)
    · exfalso
      simp [HealthCheckState.run, hok] at hfail
    · simp [HealthCheckState.run, hok]
  · intro s
    simp [HealthCheckState.healthy]

/-- C8 witness: a fast successful probe reports success; a raising probe
reports failure and bumps the counter. -/
theorem C8_healthcheck_run_witness :
    (({ } : HealthCheckState).run (some true) 1 5).2 = true ∧
    (({ } : HealthCheckState).run none 1 5).2 = false ∧
    (({ } : HealthCheckState).run none 1 5).1.failures = 1 := by
  refine ⟨?_, ?_, ?_⟩
  · exact ((C8_healthcheck_run { } (some true) 1 5).2.1 rfl
      (by norm_num)).1
  · exact (C8_healthcheck_run { } none 1 5).1 (Or.inl rfl)
  · have hfail := (C8_healthcheck_run { } none 1 5).1 (Or.inl rfl)
    have := ((C8_healthcheck_run { } none 1 5).2.2.1 hfail).2
    simpa using this

theorem runChecks_triggered (st : WatchdogState)
    (cb : ℚ → Except String Unit) (times : List ℚ)
    (h : st.triggered = true) : st.runChecks cb times = (st, 0) := by
  induction times with
  | nil => rfl
  | cons t ts ih =>
    simp [WatchdogState.runChecks, WatchdogState.check, h, ih]

theorem runChecks_cb_irrel (st : WatchdogState)
    (cb cbAlt : ℚ → Except String Unit) (times : List ℚ) :
    st.runChecks cb times = st.runChecks cbAlt times := by
  induction times generalizing st with
  | nil => rfl
  | cons t ts ih =>
    simp only [WatchdogState.runChecks, WatchdogState.check]
    rw [ih]

theorem runChecks_count (st : WatchdogState)
    (cb : ℚ → Except String Unit) (times : List ℚ)
    (h : st.triggered = false) :
    (st.runChecks cb times).2 =
      if ∃ t ∈ times, t - st.last_heartbeat > st.timeout then 1 else 0 := by
  induction times with
  | nil => simp [WatchdogState.runChecks]
  | cons t ts ih =>
    by_cases hfire : t - st.last_heartbeat > st.timeout
    · rw [if_pos ⟨t, by simp, hfire⟩]
      have hrest := runChecks_triggered
        { st with triggered := true } cb ts rfl
      simp [WatchdogState.runChecks, WatchdogState.check, h, hfire, hrest]
    · have hstep : (st.runChecks cb (t :: ts)).2 = (st.runChecks cb ts).2 := by
        simp [WatchdogState.runChecks, WatchdogState.check, h, hfire]
      rw [hstep, ih]
      by_cases hrest : ∃ x ∈ ts, x - st.last_heartbeat > st.timeout
      · rw [if_pos hrest, if_pos]
        obtain ⟨x, hx, hgt⟩ := hrest
        exact ⟨x, List.mem_cons_of_mem t hx, hgt⟩
      · rw [if_neg hrest, if_neg]
        rintro ⟨x, hx, hgt⟩
        rcases List.mem_cons.mp hx with rfl | hx2
        · exact hfire hgt
        · exact hrest ⟨x, hx2, hgt⟩

/-- C7: across any sequence of `check()` calls with no intervening
heartbeat, a watchdog starting untriggered fires its callback at most once —
exactly once iff some check occurs more than `timeout` after the last
heartbeat; a triggered watchdog never re-fires until `heartbeat()` clears
the flag; and the outcome of the callback (including a raised exception) is
swallowed: it cannot influence the run. -/
theorem C7_watchdog_single_fire (st : WatchdogState)
    (cb cbAlt : ℚ → Except String Unit) (times : List ℚ)
    (hnt : st.triggered = false) :
    (st.runChecks cb times).2 ≤ 1 ∧
    ((st.runChecks cb times).2 = 1 ↔
      ∃ t ∈ times, t - st.last_heartbeat > st.timeout) ∧
    (∀ st' : WatchdogState, st'.triggered = true →
      st'.runChecks cb times = (st', 0)) ∧
    (∀ now, (st.heartbeat now).triggered = false) ∧
    st.runChecks cb times = st.runChecks cbAlt times := by
  have hcount := runChecks_count st cb times hnt
  refine ⟨?_, ?_, ?_, ?_, runChecks_cb_irrel st cb cbAlt times⟩
  · rw [hcount]
    split <;> omega
  · rw [hcount]
    split <;> rename_i hcond
    · simpa using hcond
    · simpa using hcond
  · intro st' h
    exact runChecks_triggered st' cb times h
  · intro now
    rfl

/-- C7 witness: with `timeout = 1` and no heartbeat, five checks past the
timeout fire the callback exactly once, whether or not the callback
raises. -/
theorem C7_watchdog_single_fire_witness :
    (exWatchdog.runChecks (fun _ => Except.error "restart failed")
      [2, 3, 4, 5, 6]).2 = 1 := by
  have hmain := C7_watchdog_single_fire exWatchdog
    (fun _ => Except.error "restart failed") (fun _ => Except.ok ())
    [2, 3, 4, 5, 6] rfl
  exact hmain.2.1.mpr ⟨2, by simp, by norm_num [exWatchdog]⟩

theorem allocatedIds_cons_ok (o : OMSOrder) (rs : List (Except OMSError OMSOrder)) :
    allocatedIds (Except.ok o :: rs) = o.id :: allocatedIds rs := by
  simp [allocatedIds]

theorem allocatedIds_cons_error (e : OMSError)
    (rs : List (Except OMSError OMSOrder)) :
    allocatedIds (Except.error e :: rs) = allocatedIds rs := by
  simp [allocatedIds]

theorem omsIdString_injective : Function.Injective omsIdString := by
  intro a b h
  have hd := congrArg String.data h
  simp only [omsIdString, String.data_append] at hd
  have hrepr : (Nat.repr a).data = (Nat.repr b).data :=
    List.append_cancel_left hd
  have : Nat.repr a = Nat.repr b := by
    cases hra : Nat.repr a with
    | mk da =>
      cases hrb : Nat.repr b with
      | mk db =>
        rw [hra, hrb] at hrepr
        simp at hrepr
        rw [hrepr]
  exact natRepr_injective this

theorem submit_brokers (s : OMS) (req : OMSOrderRequest) (now : ℚ) :
    (s.submit req now).1.brokers = s.brokers := by
  cases hb : s.brokers.lookup req.broker with
  | none => simp [OMS.submit, hb]
  | some b =>
    cases hres : b.submit_order (build_broker_request req (omsIdString s.oid))
      with
    | error e => simp [OMS.submit, hb, hres]
    | ok res => simp [OMS.submit, hb, hres]

theorem submitMany_ok_ids (reqs : List (OMSOrderRequest × ℚ)) :
    ∀ s : OMS,
      (∀ p ∈ reqs, ∃ b, s.brokers.lookup p.1.broker = some b ∧
        ∀ breq, ∃ res, b.submit_order breq = Except.ok res) →
      allocatedIds (s.submitMany reqs).2 =
        (List.range reqs.length).map (fun k => omsIdString (s.oid + k)) ∧
      (s.submitMany reqs).1.oid = s.oid + reqs.length := by
  induction reqs with
  | nil => intro s _; simp [OMS.submitMany, allocatedIds]
  | cons p rest ih =>
    intro s hreg
    obtain ⟨b, hb, hok⟩ := hreg p (List.mem_cons_self p rest)
    obtain ⟨res, hres⟩ := hok (build_broker_request p.1 (omsIdString s.oid))
    have hoid : (s.submit p.1 p.2).1.oid = s.oid + 1 := by
      simp [OMS.submit, hb, hres]
    have hbro : (s.submit p.1 p.2).1.brokers = s.brokers :=
      submit_brokers s p.1 p.2
    have hid : ∃ o, (s.submit p.1 p.2).2 = Except.ok o ∧
        o.id = omsIdString s.oid :=
      ⟨{ id := omsIdString s.oid, broker := p.1.broker,
         symbol := p.1.symbol, side := p.1.side, qty := p.1.qty,
         order_type := p.1.order_type, status := res.status,
         submitted_at := p.2, broker_order_id := res.id,
         filled_qty := res.filled_qty, fill_price := res.fill_price,
         raw := some res },
       by simp [OMS.submit, hb, hres], rfl⟩
    obtain ⟨o, ho, hoideq⟩ := hid
    have hreg' : ∀ q ∈ rest, ∃ b',
        (s.submit p.1 p.2).1.brokers.lookup q.1.broker = some b' ∧
        ∀ breq, ∃ r, b'.submit_order breq = Except.ok r := by
      rw [hbro]
      exact fun q hq => hreg q (List.mem_cons_of_mem p hq)
    have hrec := ih (s.submit p.1 p.2).1 hreg'
    constructor
    · show allocatedIds ((s.submit p.1 p.2).2 ::
          ((s.submit p.1 p.2).1.submitMany rest).2) = _
      rw [ho, allocatedIds_cons_ok, hoideq, hrec.1, hoid]
      rw [List.length_cons, List.range_succ_eq_map, List.map_cons,
        List.map_map]
      have hfun : ((fun k => omsIdString (s.oid + k)) ∘ fun i => i + 1) =
          fun k => omsIdString (s.oid + 1 + k) := by
        funext k
        simp only [Function.comp]
        congr 1
        omega
      rw [hfun]
      simp
    · show ((s.submit p.1 p.2).1.submitMany rest).1.oid = _
      rw [hrec.2, hoid, List.length_cons]
      omega

/-- C5: `submit` raises a lookup error iff the named broker is unregistered;
otherwise the broker-specific request carries the freshly allocated internal
id as its `client_order_id`, the normalized `OMSOrder` is recorded in the
order book keyed by that id, the counter advances; and a run of N successful
submits allocates exactly the ids `OMS-(oid) … OMS-(oid+N-1)`: N distinct,
numerically increasing internal ids. -/
theorem C5_submit_monotonic_identity (s : OMS) (req : OMSOrderRequest)
    (now : ℚ) (reqs : List (OMSOrderRequest × ℚ)) :
    ((∃ msg, (s.submit req now).2 = .error (.unregistered msg)) ↔
      s.brokers.lookup req.broker = none) ∧
    (build_broker_request req (omsIdString s.oid)).client_order_id =
      omsIdString s.oid ∧
    (∀ b res, s.brokers.lookup req.broker = some b →
      b.submit_order (build_broker_request req (omsIdString s.oid)) =
        Except.ok res →
      ∃ order, (s.submit req now).2 = .ok order ∧
        order.id = omsIdString s.oid ∧
        (s.submit req now).1.orders.lookup (omsIdString s.oid) = some order ∧
        (s.submit req now).1.oid = s.oid + 1) ∧
    ((∀ p ∈ reqs, ∃ b, s.brokers.lookup p.1.broker = some b ∧
        ∀ breq, ∃ r, b.submit_order breq = Except.ok r) →
      allocatedIds (s.submitMany reqs).2 =
        (List.range reqs.length).map (fun k => omsIdString (s.oid + k)) ∧
      (allocatedIds (s.submitMany reqs).2).length = reqs.length ∧
      (allocatedIds (s.submitMany reqs).2).Nodup) := by
  refine ⟨?_, rfl, ?_, ?_⟩
  · constructor
    · rintro ⟨msg, hmsg⟩
      cases hb : s.brokers.lookup req.broker with
      | none => rfl
      | some b =>
        exfalso
        cases hres : b.submit_order
            (build_broker_request req (omsIdString s.oid)) with
        | error e =>
          simp [OMS.submit, hb, hres] at hmsg
        | ok res =>
          simp [OMS.submit, hb, hres] at hmsg
    · intro hb
      exact ⟨"Broker not registered: " ++ req.broker, by simp [OMS.submit, hb]⟩
  · intro b res hb hres
    have h2 : (s.submit req now).2 = Except.ok
        { id := omsIdString s.oid, broker := req.broker, symbol := req.symbol,
          side := req.side, qty := req.qty, order_type := req.order_type,
          status := res.status, submitted_at := now, broker_order_id := res.id,
          filled_qty := res.filled_qty, fill_price := res.fill_price,
          raw := some res } := by
      simp [OMS.submit, hb, hres]
    refine ⟨_, h2, rfl, ?_, by simp [OMS.submit, hb, hres]⟩
    have h1 : (s.submit req now).1.orders = dictSet s.orders (omsIdString s.oid)
        { id := omsIdString s.oid, broker := req.broker, symbol := req.symbol,
          side := req.side, qty := req.qty, order_type := req.order_type,
          status := res.status, submitted_at := now, broker_order_id := res.id,
          filled_qty := res.filled_qty, fill_price := res.fill_price,
          raw := some res } := by
      simp [OMS.submit, hb, hres]
    rw [h1]
    exact lookup_dictSet_same _ _ _
  · intro hreg
    have hrun := submitMany_ok_ids reqs s hreg
    refine ⟨hrun.1, ?_, ?_⟩
    · rw [hrun.1]
      simp
    · rw [hrun.1]
      exact List.Nodup.map
        (fun a b h => by
          have := omsIdString_injective h
          omega)
        (List.nodup_range _)

/-- C5 witness: on a fresh OMS with a healthy broker, a submit allocates
`OMS-1`, and two submits allocate the distinct, increasing ids
`OMS-1`, `OMS-2`. -/
theorem C5_submit_monotonic_identity_witness :
    (∃ order, (exOMS.submit exReq 0).2 = .ok order ∧ order.id = "OMS-1") ∧
    allocatedIds (exOMS.submitMany [(exReq, 0), (exReq, 1)]).2 =
      ["OMS-1", "OMS-2"] ∧
    (allocatedIds (exOMS.submitMany [(exReq, 0), (exReq, 1)]).2).Nodup := by
  have hmain := C5_submit_monotonic_identity exOMS exReq 0 [(exReq, 0), (exReq, 1)]
  have hhyp : ∀ p ∈ [(exReq, (0 : ℚ)), (exReq, 1)], ∃ b,
      exOMS.brokers.lookup p.1.broker = some b ∧
      ∀ breq, ∃ r, b.submit_order breq = Except.ok r := by
    intro p hp
    rcases List.mem_cons.mp hp with rfl | hp2
    · exact ⟨exBrokerOk, rfl, fun breq => ⟨_, rfl⟩⟩
    · rcases List.mem_cons.mp hp2 with rfl | hp3
      · exact ⟨exBrokerOk, rfl, fun breq => ⟨_, rfl⟩⟩
      · cases hp3
  obtain ⟨o, ho, hoid, -, -⟩ := hmain.2.2.1 exBrokerOk _ rfl rfl
  refine ⟨⟨o, ho, by rw [hoid]; decide⟩, ?_, (hmain.2.2.2 hhyp).2.2⟩
  rw [(hmain.2.2.2 hhyp).1]
  decide

theorem submit_orders_cases (s : OMS) (req : OMSOrderRequest) (now : ℚ) :
    (s.submit req now).1.orders = s.orders ∨
    ∃ o, (s.submit req now).1.orders =
      dictSet s.orders (omsIdString s.oid) o := by
  cases hb : s.brokers.lookup req.broker with
  | none => left; simp [OMS.submit, hb]
  | some b =>
    cases hres : b.submit_order (build_broker_request req (omsIdString s.oid))
      with
    | error e => left; simp [OMS.submit, hb, hres]
    | ok res =>
      right
      exact ⟨{ id := omsIdString s.oid, broker := req.broker,
               symbol := req.symbol, side := req.side, qty := req.qty,
               order_type := req.order_type, status := res.status,
               submitted_at := now, broker_order_id := res.id,
               filled_qty := res.filled_qty, fill_price := res.fill_price,
               raw := some res }, by simp [OMS.submit, hb, hres]⟩

theorem submit_oid_ge (s : OMS) (req : OMSOrderRequest) (now : ℚ) :
    s.oid ≤ (s.submit req now).1.oid := by
  cases hb : s.brokers.lookup req.broker with
  | none => simp [OMS.submit, hb]
  | some b =>
    cases hres : b.submit_order (build_broker_request req (omsIdString s.oid))
      with
    | error e => simp [OMS.submit, hb, hres]
    | ok res => simp [OMS.submit, hb, hres]

theorem submitMany_new_keys :
    ∀ (reqs : List (OMSOrderRequest × ℚ)) (s : OMS) (sid : String),
      (s.submitMany reqs).1.orders.lookup sid ≠ none →
      s.orders.lookup sid ≠ none ∨ ∃ j, s.oid ≤ j ∧ sid = omsIdString j := by
  intro reqs
  induction reqs with
  | nil => intro s sid h; exact Or.inl h
  | cons p rest ih =>
    intro s sid h
    have h' : ((s.submit p.1 p.2).1.submitMany rest).1.orders.lookup sid ≠
        none := h
    rcases ih (s.submit p.1 p.2).1 sid h' with h1 | ⟨j, hj, hsid⟩
    · rcases submit_orders_cases s p.1 p.2 with heq | ⟨o, heq⟩
      · rw [heq] at h1
        exact Or.inl h1
      · rw [heq] at h1
        rcases (lookup_dictSet_isSome _ _ _ _).mp h1 with hkey | h2
        · exact Or.inr ⟨s.oid, le_refl _, hkey⟩
        · exact Or.inl h2
    · exact Or.inr ⟨j, le_trans (submit_oid_ge s p.1 p.2) hj, hsid⟩

/-- C10: when the named broker is registered but its `submit_order` raises,
the exception propagates out of `submit`, the order book is unchanged, yet
the internal counter has already advanced — so the id allocated to the
failed submission is never assigned to any later order (recorded ids need
not be contiguous). -/
theorem C10_broker_failure_skips_id (s : OMS) (req : OMSOrderRequest)
    (now : ℚ) (b : Broker) (e : String)
    (hb : s.brokers.lookup req.broker = some b)
    (hfail : b.submit_order (build_broker_request req (omsIdString s.oid)) =
      Except.error e) :
    (s.submit req now).2 = .error (.brokerFail e) ∧
    (s.submit req now).1.orders = s.orders ∧
    (s.submit req now).1.oid = s.oid + 1 ∧
    (∀ reqs : List (OMSOrderRequest × ℚ),
      s.orders.lookup (omsIdString s.oid) = none →
      ((s.submit req now).1.submitMany reqs).1.orders.lookup
        (omsIdString s.oid) = none) := by
  have horders : (s.submit req now).1.orders = s.orders := by
    simp [OMS.submit, hb, hfail]
  have hoid : (s.submit req now).1.oid = s.oid + 1 := by
    simp [OMS.submit, hb, hfail]
  refine ⟨by simp [OMS.submit, hb, hfail], horders, hoid, ?_⟩
  intro reqs hnone
  by_contra habs
  rcases submitMany_new_keys reqs (s.submit req now).1 (omsIdString s.oid)
      habs with h1 | ⟨j, hj, hsid⟩
  · rw [horders, hnone] at h1
    exact h1 rfl
  · have : s.oid = j := omsIdString_injective hsid
    rw [hoid] at hj
    omega

/-- C10 witness: the failing broker propagates its error, leaves the order
book empty, advances the counter to 2, and after a later successful submit
to the backup broker the skipped id `OMS-1` is still absent from the book. -/
theorem C10_broker_failure_skips_id_witness :
    (exOMSFail.submit exReq 0).2 = .error (.brokerFail "ConnectionError") ∧
    (exOMSFail.submit exReq 0).1.orders = [] ∧
    (exOMSFail.submit exReq 0).1.oid = 2 ∧
    ((exOMSFail.submit exReq 0).1.submitMany
      [(exReqBackup, 1)]).1.orders.lookup "OMS-1" = none := by
  have hmain := C10_broker_failure_skips_id exOMSFail exReq 0 exBrokerFail
    "ConnectionError" rfl rfl
  refine ⟨hmain.1, hmain.2.1, hmain.2.2.1, ?_⟩
  have := hmain.2.2.2 [(exReqBackup, 1)] rfl
  simpa using this

theorem lookup_none_not_mem {β : Type} (m : List (String × β)) (sid : String)
    (h : m.lookup sid = none) : sid ∉ m.map Prod.fst := by
  induction m with
  | nil => simp
  | cons p rest ih =>
    obtain ⟨k, v⟩ := p
    rw [List.lookup_cons] at h
    by_cases heq : sid = k
    · simp [heq] at h
    · simp only [beq_false_of_ne heq] at h
      simp only [List.map_cons, List.mem_cons]
      push_neg
      exact ⟨heq, ih h⟩

theorem lookup_save_snapshot {Sig : Type}
    (handles : List (String × Handle Sig)) (sid : String) :
    (save_snapshot handles).lookup sid =
      (handles.lookup sid).map
        (fun h => ⟨h.spec, h.state, h.control_desc⟩) := by
  induction handles with
  | nil => simp [save_snapshot]
  | cons p rest ih =>
    rw [save_snapshot, List.map_cons, List.lookup_cons, List.lookup_cons]
    by_cases h : sid = p.1
    · simp [h]
    · simp only [beq_false_of_ne h]
      exact ih

theorem save_snapshot_keys {Sig : Type}
    (handles : List (String × Handle Sig)) :
    (save_snapshot handles).map Prod.fst = handles.map Prod.fst := by
  rw [save_snapshot, List.map_map]
  rfl

theorem lookup_setHandleState_same {Sig : Type}
    (hs : List (String × Handle Sig)) (sid : String) (st : StrategyState) :
    (setHandleState hs sid st).lookup sid =
      (hs.lookup sid).map (fun h => { h with state := st }) := by
  induction hs with
  | nil => simp [setHandleState]
  | cons p rest ih =>
    obtain ⟨k, v⟩ := p
    rw [setHandleState, List.map_cons]
    by_cases h : k = sid
    · subst h
      simp [List.lookup_cons]
    · rw [if_neg (by simpa using h)]
      rw [List.lookup_cons, List.lookup_cons]
      simp only [beq_false_of_ne (Ne.symm h)]
      exact ih

theorem lookup_setHandleState_ne {Sig : Type}
    (hs : List (String × Handle Sig)) (sid sid' : String)
    (st : StrategyState) (hne : sid' ≠ sid) :
    (setHandleState hs sid st).lookup sid' = hs.lookup sid' := by
  induction hs with
  | nil => simp [setHandleState]
  | cons p rest ih =>
    obtain ⟨k, v⟩ := p
    rw [setHandleState, List.map_cons]
    by_cases h : k = sid
    · rw [if_pos (by simpa using h)]
      rw [List.lookup_cons, List.lookup_cons]
      simp only [h, beq_false_of_ne hne]
      exact ih
    · rw [if_neg (by simpa using h)]
      rw [List.lookup_cons, List.lookup_cons]
      by_cases h2 : sid' = k
      · simp [h2]
      · simp only [beq_false_of_ne h2]
        exact ih

theorem setHandleState_keys {Sig : Type}
    (hs : List (String × Handle Sig)) (sid : String) (st : StrategyState) :
    (setHandleState hs sid st).map Prod.fst = hs.map Prod.fst := by
  rw [setHandleState, List.map_map]
  refine List.map_congr_left ?_
  intro p _
  by_cases h : p.1 = sid <;> simp [Function.comp, h]

theorem load_snapshot_keys {Sig : Type}
    (snap : List (String × SavedEntry)) :
    ∀ (handles : List (String × Handle Sig)),
      (load_snapshot handles snap).map Prod.fst = handles.map Prod.fst := by
  induction snap with
  | nil => intro handles; rfl
  | cons p rest ih =>
    intro handles
    show (load_snapshot (if (handles.lookup p.1).isSome then
        setHandleState handles p.1 p.2.state else handles) rest).map
      Prod.fst = _
    by_cases h : (handles.lookup p.1).isSome
    · rw [if_pos h, ih, setHandleState_keys]
    · rw [if_neg h, ih]

theorem load_snapshot_lookup_not_mem {Sig : Type}
    (snap : List (String × SavedEntry)) :
    ∀ (handles : List (String × Handle Sig)) (sid : String),
      sid ∉ snap.map Prod.fst →
      (load_snapshot handles snap).lookup sid = handles.lookup sid := by
  induction snap with
  | nil => intro handles sid _; rfl
  | cons p rest ih =>
    intro handles sid hmem
    rw [List.map_cons, List.mem_cons] at hmem
    push_neg at hmem
    show (load_snapshot (if (handles.lookup p.1).isSome then
        setHandleState handles p.1 p.2.state else handles) rest).lookup sid = _
    by_cases h : (handles.lookup p.1).isSome
    · rw [if_pos h, ih _ sid hmem.2, lookup_setHandleState_ne _ _ _ _ hmem.1]
    · rw [if_neg h, ih _ sid hmem.2]

theorem load_snapshot_lookup_mem {Sig : Type}
    (snap : List (String × SavedEntry)) :
    ∀ (handles : List (String × Handle Sig)) (sid : String) (e : SavedEntry),
      (snap.map Prod.fst).Nodup →
      snap.lookup sid = some e →
      (load_snapshot handles snap).lookup sid =
        (handles.lookup sid).map (fun h => { h with state := e.state }) := by
  induction snap with
  | nil => intro handles sid e _ h; cases h
  | cons p rest ih =>
    intro handles sid e hnd hfind
    rw [List.map_cons, List.nodup_cons] at hnd
    rw [List.lookup_cons] at hfind
    show (load_snapshot (if (handles.lookup p.1).isSome then
        setHandleState handles p.1 p.2.state else handles) rest).lookup sid = _
    by_cases heq : sid = p.1
    · subst heq
      simp only [beq_self_eq_true] at hfind
      have he : e = p.2 := by
        injection hfind with h
        exact h.symm
      subst he
      have hnot : p.1 ∉ rest.map Prod.fst := hnd.1
      rw [load_snapshot_lookup_not_mem rest _ p.1 hnot]
      by_cases h : (handles.lookup p.1).isSome
      · rw [if_pos h, lookup_setHandleState_same]
      · rw [if_neg h]
        rw [Option.not_isSome_iff_eq_none] at h
        rw [h]
        rfl
    · simp only [beq_false_of_ne heq] at hfind
      by_cases h : (handles.lookup p.1).isSome
      · rw [if_pos h, ih _ sid e hnd.2 hfind,
          lookup_setHandleState_ne _ _ _ _ heq]
      · rw [if_neg h, ih _ sid e hnd.2 hfind]

/-- C9: `save_snapshot` followed by `load_snapshot` into a freshly
constructed orchestrator restores, for every strategy id present both in the
snapshot and in the new orchestrator's handles, exactly the saved
`StrategyState` field values; the restore replaces only the `state` field of
the handle (spec, adapter and controller stay those of the new handle);
snapshot entries whose id has no handle are ignored, and the handle map's
keys are unchanged (no resurrection). -/
theorem C9_snapshot_roundtrip {Sig : Type}
    (handles1 handles2 : List (String × Handle Sig))
    (h1nd : (handles1.map Prod.fst).Nodup) :
    (∀ sid h1 h2, handles1.lookup sid = some h1 →
      handles2.lookup sid = some h2 →
      (load_snapshot handles2 (save_snapshot handles1)).lookup sid =
        some { h2 with state := h1.state }) ∧
    (∀ sid, handles1.lookup sid = none →
      (load_snapshot handles2 (save_snapshot handles1)).lookup sid =
        handles2.lookup sid) ∧
    (load_snapshot handles2 (save_snapshot handles1)).map Prod.fst =
      handles2.map Prod.fst := by
  have hsnd : ((save_snapshot handles1).map Prod.fst).Nodup := by
    rw [save_snapshot_keys]
    exact h1nd
  refine ⟨?_, ?_, load_snapshot_keys _ _⟩
  · intro sid h1 h2 hl1 hl2
    have hfind : (save_snapshot handles1).lookup sid =
        some ⟨h1.spec, h1.state, h1.control_desc⟩ := by
      rw [lookup_save_snapshot, hl1]
      rfl
    rw [load_snapshot_lookup_mem _ _ sid _ hsnd hfind, hl2]
    rfl
  · intro sid hl1
    have hnot : sid ∉ (save_snapshot handles1).map Prod.fst := by
      rw [save_snapshot_keys]
      exact lookup_none_not_mem handles1 sid hl1
    exact load_snapshot_lookup_not_mem _ _ sid hnot

/-- C9 witness: a fresh handle for `s1` receives exactly the saved running
state, its other fields untouched. -/
theorem C9_snapshot_roundtrip_witness :
    (load_snapshot [("s1", exHandleFresh)]
        (save_snapshot [("s1", exHandleRun)])).lookup "s1" =
      some { exHandleFresh with state := exStateRun } := by
  have hmain := (C9_snapshot_roundtrip [("s1", exHandleRun)]
    [("s1", exHandleFresh)] (by simp)).1 "s1" exHandleRun exHandleFresh rfl rfl
  exact hmain

/-! ### C6 — failover fires exactly once per episode. -/

theorem updCount_same (f : String → Nat) (k : String) (v : Nat) :
    updCount f k v k = v := by
  simp [updCount]

theorem updCount_compose (f : String → Nat) (k : String) (a b : Nat) :
    updCount (updCount f k a) k b = updCount f k b := by
  funext x
  by_cases h : x = k <;> simp [updCount, h]

theorem scanTargets_no_deact (probes : Nat → Option Bool)
    (actOk : Nat → Bool) (active : Nat) (nm : String) :
    ∀ (l : List FOTarget) (i : Nat),
      countDeactivations (scanTargets probes actOk active l i).1 nm = 0 := by
  intro l
  induction l with
  | nil => intro i; rfl
  | cons t rest ih =>
    intro i
    by_cases hact : i = active
    · simpa [scanTargets, hact] using ih (i + 1)
    · rcases hp : probes i with _ | b
      · simpa [scanTargets, hact, hp] using ih (i + 1)
      · cases b
        · simpa [scanTargets, hact, hp] using ih (i + 1)
        · by_cases hok : actOk i
          · simp [scanTargets, hact, hp, hok, countDeactivations]
          · have := ih (i + 1)
            simp only [scanTargets, if_neg hact, hp, if_neg hok]
            simpa [countDeactivations] using this

theorem scanTargets_found (probes : Nat → Option Bool) (actOk : Nat → Bool)
    (active : Nat) (hact : ∀ j, actOk j = true) :
    ∀ (l : List FOTarget) (i₀ k : Nat) (hk : k < l.length),
      i₀ + k ≠ active →
      probes (i₀ + k) = some true →
      (∀ j < k, i₀ + j ≠ active → probes (i₀ + j) ≠ some true) →
      scanTargets probes actOk active l i₀ =
        ([.activated (l.get ⟨k, hk⟩).name], some (i₀ + k)) := by
  intro l
  induction l with
  | nil => intro i₀ k hk; exact absurd hk (by simp)
  | cons t rest ih =>
    intro i₀ k hk hne hpass hmin
    cases k with
    | zero =>
      have hne0 : i₀ ≠ active := by simpa using hne
      have hpass0 : probes i₀ = some true := by simpa using hpass
      simp [scanTargets, hne0, hpass0, hact i₀]
    | succ k' =>
      by_cases h0 : i₀ = active
      · have := ih (i₀ + 1) k' (by simpa using hk)
          (by omega) (by
            have : i₀ + 1 + k' = i₀ + (k' + 1) := by omega
            rw [this]
            exact hpass)
          (by
            intro j hj hja
            have : i₀ + 1 + j = i₀ + (j + 1) := by omega
            rw [this] at hja ⊢
            exact hmin (j + 1) (by omega) hja)
        rw [scanTargets, if_pos h0, this]
        have harith : i₀ + 1 + k' = i₀ + (k' + 1) := by omega
        rw [harith]
        rfl
      · have hp0 : probes i₀ ≠ some true := hmin 0 (by omega)
          (by simpa using h0)
        have := ih (i₀ + 1) k' (by simpa using hk)
          (by omega) (by
            have : i₀ + 1 + k' = i₀ + (k' + 1) := by omega
            rw [this]
            exact hpass)
          (by
            intro j hj hja
            have : i₀ + 1 + j = i₀ + (j + 1) := by omega
            rw [this] at hja ⊢
            exact hmin (j + 1) (by omega) hja)
        rcases hp : probes i₀ with _ | b
        · rw [scanTargets, if_neg h0]
          rw [hp, this]
          have harith : i₀ + 1 + k' = i₀ + (k' + 1) := by omega
          rw [harith]
          rfl
        · cases b
          · rw [scanTargets, if_neg h0]
            rw [hp, this]
            have harith : i₀ + 1 + k' = i₀ + (k' + 1) := by omega
            rw [harith]
            rfl
          · exact absurd hp hp0

theorem scanTargets_none (probes : Nat → Option Bool) (actOk : Nat → Bool)
    (active : Nat) :
    ∀ (l : List FOTarget) (i₀ : Nat),
      (∀ j < l.length, i₀ + j ≠ active → probes (i₀ + j) ≠ some true) →
      scanTargets probes actOk active l i₀ = ([], none) := by
  intro l
  induction l with
  | nil => intro i₀ _; rfl
  | cons t rest ih =>
    intro i₀ hnone
    have hrest : ∀ j < rest.length, i₀ + 1 + j ≠ active →
        probes (i₀ + 1 + j) ≠ some true := by
      intro j hj hja
      have : i₀ + 1 + j = i₀ + (j + 1) := by omega
      rw [this] at hja ⊢
      exact hnone (j + 1) (by simpa using hj) hja
    by_cases h0 : i₀ = active
    · rw [scanTargets, if_pos h0]
      exact ih (i₀ + 1) hrest
    · have hp0 : probes i₀ ≠ some true := hnone 0 (by simp) (by simpa using h0)
      rcases hp : probes i₀ with _ | b
      · rw [scanTargets, if_neg h0, hp]
        exact ih (i₀ + 1) hrest
      · cases b
        · rw [scanTargets, if_neg h0, hp]
          exact ih (i₀ + 1) hrest
        · exact absurd hp hp0

theorem checkActive_fail_quiet (st : FMState) (p : Nat → Option Bool)
    (actOk : Nat → Bool)
    (hp : p st.active_index ≠ some true)
    (hlt : st.fail_counts st.current.name + 1 < st.max_failures) :
    st.checkActive p actOk =
      (bumpCount st (st.fail_counts st.current.name + 1), [], false) := by
  simp [FMState.checkActive, bumpCount, hp, hlt]

theorem checkActive_fail_trigger (st : FMState) (p : Nat → Option Bool)
    (actOk : Nat → Bool)
    (hp : p st.active_index ≠ some true)
    (hge : ¬ st.fail_counts st.current.name + 1 < st.max_failures) :
    st.checkActive p actOk =
      (bumpCount st (st.fail_counts st.current.name + 1)).failover p
        actOk := by
  simp [FMState.checkActive, bumpCount, hp, hge]

theorem bumpCount_current (st : FMState) (v : Nat) :
    (bumpCount st v).current = st.current := rfl

theorem bumpCount_max (st : FMState) (v : Nat) :
    (bumpCount st v).max_failures = st.max_failures := rfl

theorem bumpCount_bumpCount (st : FMState) (a b : Nat) :
    bumpCount (bumpCount st a) b = bumpCount st b := by
  simp [bumpCount, FMState.current, updCount_compose]

theorem runChecks_episode :
    ∀ (k : Nat) (st : FMState) (probes : Nat → Nat → Option Bool)
      (actOk : Nat → Bool),
      (∀ s, s < k → probes s st.active_index ≠ some true) →
      st.fail_counts st.current.name + k = st.max_failures →
      1 ≤ k →
      st.runChecks probes actOk k =
        (bumpCount st st.max_failures).failover (probes (k - 1)) actOk := by
  intro k
  induction k with
  | zero => intro st probes actOk _ _ h1; omega
  | succ k ih =>
    intro st probes actOk hfail hcnt hk
    by_cases hk0 : k = 0
    · subst hk0
      have hp := hfail 0 (by omega)
      have htrig : ¬ st.fail_counts st.current.name + 1 < st.max_failures :=
        by omega
      have hca := checkActive_fail_trigger st (probes 0) actOk hp htrig
      have hmax : st.fail_counts st.current.name + 1 = st.max_failures := hcnt
      rw [hmax] at hca
      show (let step := st.checkActive (probes 0) actOk
        if step.2.2 then (step.1, step.2.1, true)
        else
          let tail := step.1.runChecks (fun s => probes (s + 1)) actOk 0
          (tail.1, step.2.1 ++ tail.2.1, tail.2.2)) = _
      rw [hca]
      rcases hR : (bumpCount st st.max_failures).failover (probes 0) actOk
        with ⟨s1, evs, raised⟩
      cases raised <;> simp [FMState.runChecks]
    · have hk1 : 1 ≤ k := by omega
      have hp := hfail 0 (by omega)
      have hlt : st.fail_counts st.current.name + 1 < st.max_failures := by
        omega
      have hca := checkActive_fail_quiet st (probes 0) actOk hp hlt
      have hih := ih (bumpCount st (st.fail_counts st.current.name + 1))
        (fun s => probes (s + 1)) actOk
        (fun s hs => hfail (s + 1) (by omega))
        (by
          show updCount st.fail_counts st.current.name
            (st.fail_counts st.current.name + 1) st.current.name + k =
            st.max_failures
          rw [updCount_same]
          omega)
        hk1
      show (let step := st.checkActive (probes 0) actOk
        if step.2.2 then (step.1, step.2.1, true)
        else
          let tail := step.1.runChecks (fun s => probes (s + 1)) actOk k
          (tail.1, step.2.1 ++ tail.2.1, tail.2.2)) = _
      rw [hca]
      simp only
      rw [hih]
      rw [show (fun s => probes (s + 1)) (k - 1) = probes (k + 1 - 1) by
        show probes (k - 1 + 1) = probes (k + 1 - 1)
        rw [show k - 1 + 1 = k + 1 - 1 by omega]]
      rw [bumpCount_max, bumpCount_bumpCount]
      simp

theorem getD_of_lt {α : Type} (l : List α) (n : Nat) (d : α)
    (h : n < l.length) : l.getD n d = l.get ⟨n, h⟩ := by
  simp [List.getD_eq_getElem?_getD, List.getElem?_eq_getElem h]

theorem failover_found (st : FMState) (p : Nat → Option Bool)
    (actOk : Nat → Bool) (evs : List FOEvent) (i : Nat)
    (hscan : scanTargets p actOk st.active_index st.targets 0 = (evs, some i))
    (hdeact : st.current.hasDeactivate = true) :
    st.failover p actOk =
      ({ st with
          active_index := i,
          fail_counts :=
            updCount st.fail_counts ((st.targets.getD i default).name) 0 },
       FOEvent.deactivated st.current.name :: evs, false) := by
  simp only [FMState.failover, hscan, hdeact, if_true]
  rfl

theorem failover_none (st : FMState) (p : Nat → Option Bool)
    (actOk : Nat → Bool) (evs : List FOEvent)
    (hscan : scanTargets p actOk st.active_index st.targets 0 = (evs, none))
    (hdeact : st.current.hasDeactivate = true) :
    st.failover p actOk =
      (st, FOEvent.deactivated st.current.name :: evs, true) := by
  simp only [FMState.failover, hscan, hdeact, if_true]
  rfl

/-- C6: starting from a zero failure count, `max_failures` consecutive
failed health checks of the active target trigger exactly one failover for
the episode: the event log of the whole run contains exactly one
`deactivated` invocation of the current target (whatever the scan outcome);
if some other target's probe passes at failover time, the first such target
in list order is activated, becomes `current()` (same target list, new
active index) with its failure count reset to zero and the run raises no
error; if no other target's probe passes, the run raises the terminal
`FailoverError` after the single deactivation. -/
theorem C6_failover_exactly_once (st : FMState)
    (probes : Nat → Nat → Option Bool) (actOk : Nat → Bool)
    (_hlen : st.active_index < st.targets.length)
    (hm : 1 ≤ st.max_failures)
    (hc0 : st.fail_counts st.current.name = 0)
    (hfail : ∀ s, s < st.max_failures → probes s st.active_index ≠ some true)
    (hact : ∀ i, actOk i = true)
    (hdeact : st.current.hasDeactivate = true) :
    countDeactivations
      (st.runChecks probes actOk st.max_failures).2.1 st.current.name = 1 ∧
    (∀ i, ∀ hi : i < st.targets.length, i ≠ st.active_index →
      probes (st.max_failures - 1) i = some true →
      (∀ j, j < i → j ≠ st.active_index →
        probes (st.max_failures - 1) j ≠ some true) →
      (st.runChecks probes actOk st.max_failures).2.2 = false ∧
      (st.runChecks probes actOk st.max_failures).1.active_index = i ∧
      (st.runChecks probes actOk st.max_failures).1.targets = st.targets ∧
      (st.runChecks probes actOk st.max_failures).1.fail_counts
        (st.targets.get ⟨i, hi⟩).name = 0 ∧
      (st.runChecks probes actOk st.max_failures).2.1 =
        [FOEvent.deactivated st.current.name,
         FOEvent.activated (st.targets.get ⟨i, hi⟩).name]) ∧
    ((∀ j, j < st.targets.length → j ≠ st.active_index →
        probes (st.max_failures - 1) j ≠ some true) →
      (st.runChecks probes actOk st.max_failures).2.2 = true ∧
      (st.runChecks probes actOk st.max_failures).2.1 =
        [FOEvent.deactivated st.current.name]) := by
  have hrun := runChecks_episode st.max_failures st probes actOk hfail
    (by omega) hm
  have hbc_deact : (bumpCount st st.max_failures).current.hasDeactivate =
      true := hdeact
  refine ⟨?_, ?_, ?_⟩
  · rw [hrun]
    rcases hscan : scanTargets (probes (st.max_failures - 1)) actOk
        st.active_index st.targets 0 with ⟨evs, found⟩
    have hnodeact := scanTargets_no_deact (probes (st.max_failures - 1))
      actOk st.active_index st.current.name st.targets 0
    rw [hscan] at hnodeact
    simp only [countDeactivations] at hnodeact
    cases found with
    | some i =>
      rw [failover_found (bumpCount st st.max_failures) _ _ evs i hscan
        hbc_deact]
      simp only [countDeactivations, List.filter_cons, bumpCount_current]
      simp [hnodeact]
    | none =>
      rw [failover_none (bumpCount st st.max_failures) _ _ evs hscan
        hbc_deact]
      simp only [countDeactivations, List.filter_cons, bumpCount_current]
      simp [hnodeact]
  · intro i hi hne hpass hmin
    have hscan := scanTargets_found (probes (st.max_failures - 1)) actOk
      st.active_index hact st.targets 0 i hi (by simpa using hne)
      (by simpa using hpass)
      (by
        intro j hj hja
        simp only [Nat.zero_add] at hja ⊢
        exact hmin j hj hja)
    have hfo := failover_found (bumpCount st st.max_failures)
      (probes (st.max_failures - 1)) actOk _ i
      (by simpa using hscan) hbc_deact
    rw [hrun, hfo]
    refine ⟨rfl, rfl, rfl, ?_, rfl⟩
    show updCount (bumpCount st st.max_failures).fail_counts
      ((st.targets.getD i default).name) 0
      (st.targets.get ⟨i, hi⟩).name = 0
    rw [getD_of_lt st.targets i default hi]
    exact updCount_same _ _ _
  · intro hnone
    have hscan : scanTargets (probes (st.max_failures - 1)) actOk
        st.active_index st.targets 0 = ([], none) :=
      scanTargets_none (probes (st.max_failures - 1)) actOk
        st.active_index st.targets 0
        (by
          intro j hj hja
          simp only [Nat.zero_add] at hja ⊢
          exact hnone j hj hja)
    have hfo := failover_none (bumpCount st st.max_failures)
      (probes (st.max_failures - 1)) actOk [] (by simpa using hscan)
      hbc_deact
    rw [hrun, hfo]
    exact ⟨rfl, rfl⟩

/-- C6 witness: with 2 targets, `max_failures = 3`, target 1 failing three
consecutive polls and target 2 passing, three polls produce exactly one
deactivation of the primary, make the backup current, reset its count, and
raise no error. -/
theorem C6_failover_exactly_once_witness :
    countDeactivations
      (exFM.runChecks exProbes (fun _ => true) 3).2.1 "primary-broker" = 1 ∧
    (exFM.runChecks exProbes (fun _ => true) 3).2.2 = false ∧
    (exFM.runChecks exProbes (fun _ => true) 3).1.active_index = 1 ∧
    (exFM.runChecks exProbes (fun _ => true) 3).1.fail_counts
      "backup-broker" = 0 := by
  have hmain := C6_failover_exactly_once exFM exProbes (fun _ => true)
    (by decide) (by decide) rfl
    (fun s _ => by simp [exProbes, exFM])
    (fun i => rfl) rfl
  have hB := hmain.2.1 1 (by decide) (by decide) (by simp [exProbes])
    (fun j hj hne => absurd (by omega : j = 0) hne)
  exact ⟨hmain.1, hB.1, hB.2.1, hB.2.2.2.1⟩
